import Mathlib

/-!
# Verification of the invoice-extraction pipeline

Shallow embedding of the repository's core pipeline:
`utils/json_repair.py`, `utils/data_validator.py`, `utils/retry.py`,
`services/llm_wrapper.py` and `services/invoices_ocr_service.py`.

Python values flowing through the pipeline are modelled by the `Json`
inductive; Python floats are modelled by exact rationals (the claims under
scrutiny concern control flow and order comparisons, not rounding);
functions that can raise return `Option`.
-/

set_option maxHeartbeats 1000000
set_option maxRecDepth 10000

attribute [local semireducible] Rat.mul Rat.add Rat.sub Rat.inv

/-- Model of the Python values (dicts/lists/strings/numbers/bools/None)
the pipeline passes around.  Python dicts are insertion-ordered key/value
lists. -/
inductive Json where
  | null : Json
  | bool : Bool → Json
  | num : ℚ → Json
  | str : String → Json
  | arr : List Json → Json
  | obj : List (String × Json) → Json

mutual

/-- Decidable equality on `Json` (the derive handler does not support the
nested occurrence of `List`). -/
def jsonDecEq : (a b : Json) → Decidable (a = b)
  | .null, .null => isTrue rfl
  | .null, .bool _ => isFalse (fun h => Json.noConfusion h)
  | .null, .num _ => isFalse (fun h => Json.noConfusion h)
  | .null, .str _ => isFalse (fun h => Json.noConfusion h)
  | .null, .arr _ => isFalse (fun h => Json.noConfusion h)
  | .null, .obj _ => isFalse (fun h => Json.noConfusion h)
  | .bool _, .null => isFalse (fun h => Json.noConfusion h)
  | .bool x, .bool y =>
      match decEq x y with
      | isTrue h => isTrue (by rw [h])
      | isFalse h => isFalse (fun e => h (by cases e; rfl))
  | .bool _, .num _ => isFalse (fun h => Json.noConfusion h)
  | .bool _, .str _ => isFalse (fun h => Json.noConfusion h)
  | .bool _, .arr _ => isFalse (fun h => Json.noConfusion h)
  | .bool _, .obj _ => isFalse (fun h => Json.noConfusion h)
  | .num _, .null => isFalse (fun h => Json.noConfusion h)
  | .num _, .bool _ => isFalse (fun h => Json.noConfusion h)
  | .num x, .num y =>
      match decEq x y with
      | isTrue h => isTrue (by rw [h])
      | isFalse h => isFalse (fun e => h (by cases e; rfl))
  | .num _, .str _ => isFalse (fun h => Json.noConfusion h)
  | .num _, .arr _ => isFalse (fun h => Json.noConfusion h)
  | .num _, .obj _ => isFalse (fun h => Json.noConfusion h)
  | .str _, .null => isFalse (fun h => Json.noConfusion h)
  | .str _, .bool _ => isFalse (fun h => Json.noConfusion h)
  | .str _, .num _ => isFalse (fun h => Json.noConfusion h)
  | .str x, .str y =>
      match decEq x y with
      | isTrue h => isTrue (by rw [h])
      | isFalse h => isFalse (fun e => h (by cases e; rfl))
  | .str _, .arr _ => isFalse (fun h => Json.noConfusion h)
  | .str _, .obj _ => isFalse (fun h => Json.noConfusion h)
  | .arr _, .null => isFalse (fun h => Json.noConfusion h)
  | .arr _, .bool _ => isFalse (fun h => Json.noConfusion h)
  | .arr _, .num _ => isFalse (fun h => Json.noConfusion h)
  | .arr _, .str _ => isFalse (fun h => Json.noConfusion h)
  | .arr x, .arr y =>
      match jsonListDecEq x y with
      | isTrue h => isTrue (by rw [h])
      | isFalse h => isFalse (fun e => h (by cases e; rfl))
  | .arr _, .obj _ => isFalse (fun h => Json.noConfusion h)
  | .obj _, .null => isFalse (fun h => Json.noConfusion h)
  | .obj _, .bool _ => isFalse (fun h => Json.noConfusion h)
  | .obj _, .num _ => isFalse (fun h => Json.noConfusion h)
  | .obj _, .str _ => isFalse (fun h => Json.noConfusion h)
  | .obj _, .arr _ => isFalse (fun h => Json.noConfusion h)
  | .obj x, .obj y =>
      match jsonKVListDecEq x y with
      | isTrue h => isTrue (by rw [h])
      | isFalse h => isFalse (fun e => h (by cases e; rfl))

/-- Decidable equality on lists of `Json`. -/
def jsonListDecEq : (a b : List Json) → Decidable (a = b)
  | [], [] => isTrue rfl
  | [], _ :: _ => isFalse (fun h => List.noConfusion h)
  | _ :: _, [] => isFalse (fun h => List.noConfusion h)
  | a :: as, b :: bs =>
      match jsonDecEq a b with
      | isTrue h1 =>
          match jsonListDecEq as bs with
          | isTrue h2 => isTrue (by rw [h1, h2])
          | isFalse h2 => isFalse (fun e => h2 (by cases e; rfl))
      | isFalse h1 => isFalse (fun e => h1 (by cases e; rfl))

/-- Decidable equality on key/value lists. -/
def jsonKVListDecEq : (a b : List (String × Json)) → Decidable (a = b)
  | [], [] => isTrue rfl
  | [], _ :: _ => isFalse (fun h => List.noConfusion h)
  | _ :: _, [] => isFalse (fun h => List.noConfusion h)
  | (ka, va) :: as, (kb, vb) :: bs =>
      match decEq ka kb with
      | isTrue hk =>
          match jsonDecEq va vb with
          | isTrue h1 =>
              match jsonKVListDecEq as bs with
              | isTrue h2 => isTrue (by rw [hk, h1, h2])
              | isFalse h2 => isFalse (fun e => h2 (by cases e; rfl))
          | isFalse h1 => isFalse (fun e => h1 (by cases e; rfl))
      | isFalse hk => isFalse (fun e => hk (by cases e; rfl))

end

instance : DecidableEq Json := jsonDecEq

namespace Json

/-- `d.get(k)` on a Python dict: first (and in practice only) binding. -/
def get? : Json → String → Option Json
  | .obj kvs, k => kvs.lookup k
  | _, _ => none

/-- `d.get(k, default)` on a Python dict (callers below only invoke it on
dicts; the non-dict case is modelled separately where it raises). -/
def getD (j : Json) (k : String) (d : Json) : Json := (j.get? k).getD d

/-- Python truthiness of a value. -/
def truthy : Json → Bool
  | .null => false
  | .bool b => b
  | .num q => decide (q ≠ 0)
  | .str s => !s.data.isEmpty
  | .arr l => !l.isEmpty
  | .obj l => !l.isEmpty

end Json

/-! ## Python string primitives -/

/-- Python's ASCII whitespace (the characters `str.strip`/`str.split`
treat as separators on the data this repository handles). -/
def pyIsWs (c : Char) : Bool :=
  c = ' ' || c = '\t' || c = '\n' || c = '\r' || c = '\x0b' || c = '\x0c'

/-- `s.strip()`. -/
def pyStrip (s : String) : String :=
  ⟨((s.data.dropWhile pyIsWs).reverse.dropWhile pyIsWs).reverse⟩

/-- `s.rstrip()`. -/
def pyRstrip (s : String) : String :=
  ⟨(s.data.reverse.dropWhile pyIsWs).reverse⟩

/-- `s.upper()` (ASCII; the keyword matching below is ASCII-only). -/
def pyUpper (s : String) : String :=
  ⟨s.data.map (fun c => if 97 ≤ c.toNat ∧ c.toNat ≤ 122 then Char.ofNat (c.toNat - 32) else c)⟩

/-- `s.lower()` (ASCII). -/
def pyLower (s : String) : String :=
  ⟨s.data.map (fun c => if 65 ≤ c.toNat ∧ c.toNat ≤ 90 then Char.ofNat (c.toNat + 32) else c)⟩

/-- `s.startswith(p)`. -/
def pyStartsWith (s p : String) : Bool := p.data.isPrefixOf s.data

/-- `s.endswith(p)`. -/
def pyEndsWith (s p : String) : Bool := p.data.reverse.isPrefixOf s.data.reverse

/-- Accumulating worker for `str.split()` (split on whitespace runs,
dropping empty fields); `cur` holds the current word reversed. -/
def pySplitGo (p : Char → Bool) : List Char → List Char → List (List Char)
  | [], cur => if cur.isEmpty then [] else [cur.reverse]
  | c :: cs, cur =>
      if p c then
        if cur.isEmpty then pySplitGo p cs []
        else cur.reverse :: pySplitGo p cs []
      else pySplitGo p cs (c :: cur)

/-- `s.split()` with no argument: maximal runs of non-whitespace. -/
def pySplitWs (s : String) : List (List Char) := pySplitGo pyIsWs s.data []

/-- Absolute value on the rational model of floats (kernel-evaluable
unlike the lattice `abs`). -/
def ratAbs (q : ℚ) : ℚ := if q < 0 then -q else q

/-- Python `min` on two rationals. -/
def ratMin (a b : ℚ) : ℚ := if a ≤ b then a else b

/-- `sep.join(items)`. -/
def joinSep (sep : String) : List String → String
  | [] => ""
  | [x] => x
  | x :: y :: xs => x ++ sep ++ joinSep sep (y :: xs)

/-- Non-overlapping substring test (`needle in hay` for Python `str`). -/
def listContainsSub (needle : List Char) : List Char → Bool
  | [] => needle.isEmpty
  | c :: cs => needle.isPrefixOf (c :: cs) || listContainsSub needle cs

/-- `needle in hay` for Python strings. -/
def pyContains (hay needle : String) : Bool := listContainsSub needle.data hay.data

/-- Count occurrences of a single character (`s.count(c)`). -/
def countChar (c : Char) (l : List Char) : Nat := l.countP (· = c)

/-- Fueled worker for `countSub` (the fuel is always ample). -/
def countSubF (needle : List Char) : ℕ → List Char → Nat
  | 0, _ => 0
  | _ + 1, [] => 0
  | f + 1, c :: cs =>
      if needle.isPrefixOf (c :: cs) then
        1 + countSubF needle f (cs.drop (needle.length - 1))
      else countSubF needle f cs

/-- Non-overlapping occurrence count of a substring (`s.count(sub)`).
After a match the scan resumes past the matched occurrence. -/
def countSub (needle l : List Char) : Nat := countSubF needle l.length l

/-- `s.split('\n')` (keeps empty fields). -/
def splitLines (l : List Char) : List (List Char) :=
  match l with
  | [] => [[]]
  | c :: cs =>
      match splitLines cs with
      | [] => [[]]
      | w :: ws => if c = '\n' then [] :: w :: ws else (c :: w) :: ws

/-- Model of CPython's `str.isprintable` on the Latin range: control
characters U+0000–U+001F and U+007F–U+009F and the separator U+00A0 are
not printable; the model treats everything above U+00A0 as printable
(the invoice data this repository handles is ASCII). -/
def pyIsPrintable (c : Char) : Bool :=
  !(c.toNat < 0x20 || (0x7f ≤ c.toNat && c.toNat ≤ 0xa0))

/-- A Unicode control character (category Cc). -/
def isCtrlChar (c : Char) : Bool :=
  c.toNat < 0x20 || (0x7f ≤ c.toNat && c.toNat ≤ 0x9f)

/-- The string has no control character. -/
def noCtrl (s : String) : Bool := s.data.all (fun c => !isCtrlChar c)

/-! ## Rendering Python values as text (`str`/`repr`) -/

/-- Decimal digit character. -/
def digitChar10 (n : ℕ) : Char := Char.ofNat (48 + n % 10)

/-- Fueled worker for `natDigits` (structural recursion so that the
kernel can evaluate it; the fuel is always ample). -/
def natDigitsF : ℕ → ℕ → List Char
  | 0, n => [digitChar10 n]
  | f + 1, n => if n < 10 then [digitChar10 n] else natDigitsF f (n / 10) ++ [digitChar10 (n % 10)]

/-- Decimal digits of a natural number, most significant first. -/
def natDigits (n : ℕ) : List Char := natDigitsF n n

/-- Decimal rendering of an integer. -/
def intRepr (i : ℤ) : String :=
  if i < 0 then "-" ++ ⟨natDigits i.natAbs⟩ else ⟨natDigits i.natAbs⟩

/-- Rendering of a Python float, modelled on exact rationals: integers
render as `str(float)` does (`"2.0"`); non-integer rationals render as a
fraction (the exact decimal digits of a binary float are outside this
model; no claim depends on them). -/
def numRepr (q : ℚ) : String :=
  if q.den = 1 then intRepr q.num ++ ".0"
  else intRepr q.num ++ "/" ++ (⟨natDigits q.den⟩ : String)

/-- Hexadecimal digit character. -/
def digitChar16 (n : ℕ) : Char :=
  if n % 16 < 10 then Char.ofNat (48 + n % 16) else Char.ofNat (87 + n % 16)

/-- How `repr` of a Python string escapes one character: backslash,
quote, newline, carriage return and tab get two-character escapes; other
non-printable characters get a `\xNN` escape; printable characters stand
for themselves. -/
def reprEscChar (c : Char) : String :=
  if c = '\\' then "\\\\"
  else if c = '\'' then "\\'"
  else if c = '\n' then "\\n"
  else if c = '\r' then "\\r"
  else if c = '\t' then "\\t"
  else if pyIsPrintable c then ⟨[c]⟩
  else "\\x" ++ ⟨[digitChar16 (c.toNat / 16), digitChar16 c.toNat]⟩

/-- `repr` of a Python string (single-quoted; the alternate double-quote
form Python picks when the text contains a quote is not needed by any
claim). -/
def pyReprStr (s : String) : String :=
  "'" ++ String.join (s.data.map reprEscChar) ++ "'"

mutual

/-- Python `str()` of a value: identity on strings, `repr`-style
rendering of containers. -/
def pyStrJ : Json → String
  | .null => "None"
  | .bool true => "True"
  | .bool false => "False"
  | .num q => numRepr q
  | .str s => s
  | .arr l => "[" ++ joinSep ", " (pyReprList l) ++ "]"
  | .obj kvs => "\x7b" ++ joinSep ", " (pyReprKVs kvs) ++ "\x7d"

/-- Python `repr()` of a value (strings are quoted and escaped). -/
def pyReprJ : Json → String
  | .null => "None"
  | .bool true => "True"
  | .bool false => "False"
  | .num q => numRepr q
  | .str s => pyReprStr s
  | .arr l => "[" ++ joinSep ", " (pyReprList l) ++ "]"
  | .obj kvs => "\x7b" ++ joinSep ", " (pyReprKVs kvs) ++ "\x7d"

/-- `repr` of the elements of a list. -/
def pyReprList : List Json → List String
  | [] => []
  | j :: js => pyReprJ j :: pyReprList js

/-- `repr` of the entries of a dict. -/
def pyReprKVs : List (String × Json) → List String
  | [] => []
  | (k, v) :: kvs => (pyReprStr k ++ ": " ++ pyReprJ v) :: pyReprKVs kvs

end

/-! ## Python `float()` coercion -/

/-- Digits prefix of a character list. -/
def takeDigits (l : List Char) : List Char × List Char := l.span Char.isDigit

/-- Numeric value of a digit list. -/
def digitsVal (ds : List Char) : ℕ := ds.foldl (fun a c => a * 10 + (c.toNat - 48)) 0

/-- Model of `float(s)` for a string: optional surrounding whitespace and
sign, then a decimal literal with optional fractional part and optional
exponent.  (Python's `inf`/`nan` spellings and digit-group underscores
are not modelled; no claim depends on them.) -/
def pyFloatOfString (s : String) : Option ℚ :=
  let cs := (pyStrip s).data
  let signed : ℚ × List Char :=
    match cs with
    | '-' :: rest => (-1, rest)
    | '+' :: rest => (1, rest)
    | _ => (1, cs)
  let sign := signed.1
  let (ip, rest1) := takeDigits signed.2
  let fracual : List Char × List Char :=
    match rest1 with
    | '.' :: r => takeDigits r
    | _ => ([], rest1)
  let fp := fracual.1
  let rest2 := fracual.2
  if ip.isEmpty && fp.isEmpty then none
  else
    let mant : ℚ := (digitsVal ip : ℚ) + (digitsVal fp : ℚ) / ((10 : ℚ) ^ fp.length)
    match rest2 with
    | [] => some (sign * mant)
    | 'e' :: er => pyFloatExp (sign * mant) er
    | 'E' :: er => pyFloatExp (sign * mant) er
    | _ => none
where
  /-- Exponent part: optional sign and a nonempty digit run ending the string. -/
  pyFloatExp (m : ℚ) (er : List Char) : Option ℚ :=
    let se : ℤ × List Char :=
      match er with
      | '-' :: r => (-1, r)
      | '+' :: r => (1, r)
      | _ => (1, er)
    let (ed, rest) := takeDigits se.2
    if ed.isEmpty || !rest.isEmpty then none
    else some (m * (10 : ℚ) ^ (se.1 * (digitsVal ed : ℤ)))

/-- Model of `float(x)` for a Python value: numbers pass through, bools
become 0/1, strings are parsed, everything else raises `TypeError`
(`none`). -/
def pyFloat : Json → Option ℚ
  | .num q => some q
  | .bool b => some (if b then 1 else 0)
  | .str s => pyFloatOfString s
  | _ => none

/-- Elements produced by iterating a Python value (`list.extend`, `for`):
lists yield their elements, strings their characters, dicts their keys;
other values raise `TypeError` (`none`). -/
def pyIterElems : Json → Option (List Json)
  | .arr l => some l
  | .str s => some (s.data.map (fun c => Json.str ⟨[c]⟩))
  | .obj kvs => some (kvs.map (fun kv => Json.str kv.1))
  | _ => none

/-! ## `utils/data_validator.py` -/

/-- `clean_item_name` (string case): replace non-printable characters
with spaces, replace newlines/tabs with spaces, collapse whitespace runs
to single spaces, trim. -/
def cleanNameStr (s : String) : String :=
  let step1 := s.data.map (fun c =>
    if pyIsPrintable c || c = '\n' || c = '\t' then c else ' ')
  let step2 := step1.map (fun c => if c = '\n' then ' ' else if c = '\t' then ' ' else c)
  let words := pySplitGo pyIsWs step2 []
  pyStrip (joinSep " " (words.map (fun w => (⟨w⟩ : String))))

/-- `clean_item_name`: non-string input is stringified and returned
without any cleaning (the source returns `str(name)` early). -/
def clean_item_name (name : Json) : String :=
  match name with
  | .str s => cleanNameStr s
  | j => pyStrJ j

/-- The comma removal `value.replace(',', '')` applied to string inputs
of `validate_numeric_field`. -/
def commaStripped (value : Json) : Json :=
  match value with
  | .str s => Json.str ⟨s.data.filter (fun c => c ≠ ',')⟩
  | other => other

/-- `validate_numeric_field`: strings lose their commas, the value goes
through `float()`, negatives are replaced by their absolute value,
unconvertible values fall back to the default. -/
def validate_numeric_field (value : Json) (default : ℚ) : ℚ :=
  match pyFloat (commaStripped value) with
  | some x => if x < 0 then -x else x
  | none => default

/-- The strongly-specific non-billable keywords (substring match). -/
def strongKeywords : List String :=
  ["DISCOUNT", "SUBTOTAL", "SUB TOTAL", "SUB-TOTAL",
   "GRAND TOTAL", "NET TOTAL", "AMOUNT TOTAL",
   "ROUND OFF", "ROUNDING"]

/-- The generic non-billable keywords (exact or boundary match). -/
def exactKeywords : List String := ["GST", "CGST", "SGST", "IGST", "TAX", "TOTAL"]

/-- `is_discount_or_total_row`: uppercase and strip the name; a strong
keyword anywhere in the name filters it; a generic keyword filters only
when the whole name equals it, or the name starts with it followed by a
space or a colon, or ends with it preceded by a space or a colon. -/
def is_discount_or_total_row (item_name : String) : Bool :=
  if item_name.data.isEmpty then false
  else
    let nu := pyStrip (pyUpper item_name)
    strongKeywords.any (fun k => pyContains nu k) ||
    exactKeywords.any (fun k =>
      nu == k || pyStartsWith nu (k ++ " ") || pyStartsWith nu (k ++ ":") ||
      pyEndsWith nu (" " ++ k) || pyEndsWith nu (":" ++ k))

/-- `validate_bill_item`: clean the name, coerce the three numeric
fields (defaults 1.0 / 0.0 / 0.0), and overwrite a zero amount with
`quantity * rate` when that product is positive and differs from the
amount by more than the 0.01 tolerance. -/
def validate_bill_item (item : Json) : Json :=
  let nm := clean_item_name (item.getD "item_name" (.str "Unknown Item"))
  let q := validate_numeric_field (item.getD "item_quantity" (.num 1)) 1
  let r := validate_numeric_field (item.getD "item_rate" (.num 0)) 0
  let a := validate_numeric_field (item.getD "item_amount" (.num 0)) 0
  let expected := q * r
  let a' :=
    if ratAbs (expected - a) > 1/100 ∧ expected > 0 then
      if a = 0 ∧ expected > 0 then expected else a
    else a
  Json.obj [("item_name", .str nm), ("item_quantity", .num q),
            ("item_rate", .num r), ("item_amount", .num a')]

/-- The three admissible page classifications. -/
def valid_types : List String := ["Bill Detail", "Final Bill", "Pharmacy"]

/-- `validate_page_type`: falsy input defaults, an exact match is kept,
otherwise a case-insensitive match against the canonical spellings, else
the default `"Bill Detail"`. -/
def validate_page_type (page_type : Json) : String :=
  if !page_type.truthy then "Bill Detail"
  else if (match page_type with | .str s => valid_types.contains s | _ => false) then
    pyStrJ page_type
  else
    match valid_types.find? (fun v => pyLower (pyStrip (pyStrJ page_type)) == pyLower v) with
    | some v => v
    | none => "Bill Detail"

/-- One iteration of the item loop of `validate_and_clean_invoice_data`:
non-dict items are skipped; discount/total rows are skipped; items whose
raw (pre-coercion) amount parses negative are skipped; items with an
empty or placeholder name are skipped; everything else contributes its
validated form. -/
def processItem (item : Json) : Option Json :=
  match item with
  | .obj _ =>
      let v := validate_bill_item item
      let nm := clean_item_name (item.getD "item_name" (.str "Unknown Item"))
      if is_discount_or_total_row nm then none
      else
        let raw := item.getD "item_amount" (.num 0)
        let rawParsed : Option ℚ :=
          match raw with
          | .str s => pyFloatOfString ⟨s.data.filter (fun c => c ≠ ',')⟩
          | other => pyFloat other
        match rawParsed with
        | some x =>
            if x < 0 then none
            else if nm ≠ "" ∧ nm ≠ "Unknown Item" then some v else none
        | none => if nm ≠ "" ∧ nm ≠ "Unknown Item" then some v else none
  | _ => none

/-- One iteration of the page loop of `validate_and_clean_invoice_data`:
non-dict pages are skipped; `page_no` is stringified, `page_type`
normalised, the items filtered; a page left with no items is dropped. -/
def processPage (page : Json) : Option Json :=
  match page with
  | .obj _ =>
      let pn := pyStrJ (page.getD "page_no" (.str "1"))
      let pt := validate_page_type (page.getD "page_type" (.str "Bill Detail"))
      let items := match page.getD "bill_items" (.arr []) with
        | .arr l => l
        | _ => []
      let vitems := items.filterMap processItem
      if vitems.isEmpty then none
      else some (.obj [("page_no", .str pn), ("page_type", .str pt),
                       ("bill_items", .arr vitems)])
  | _ => none

/-- `validate_and_clean_invoice_data`: non-dict input or a non-list
`pagewise_line_items` degrade to the empty result; otherwise every page
is validated and pages without surviving items are dropped. -/
def validate_and_clean_invoice_data (data : Json) : Json :=
  match data with
  | .obj _ =>
      (match data.getD "pagewise_line_items" (.arr []) with
       | .arr pages => .obj [("pagewise_line_items", .arr (pages.filterMap processPage))]
       | _ => .obj [("pagewise_line_items", .arr [])])
  | _ => .obj [("pagewise_line_items", .arr [])]

/-- Signature used by `remove_duplicate_items`:
`(name.lower().strip(), quantity, rate, amount)`. -/
def itemSig (nm : String) (q r a : Json) : String × Json × Json × Json :=
  (pyStrip (pyLower nm), q, r, a)

/-- The per-page dedup loop of `remove_duplicate_items`; `none` models a
raised `KeyError`/`AttributeError` (keyed accesses, `.lower()` on a
non-string). -/
def dedupItems (seen : List (String × Json × Json × Json)) :
    List Json → Option (List Json)
  | [] => some []
  | item :: rest =>
      match item.get? "item_name", item.get? "item_quantity",
            item.get? "item_rate", item.get? "item_amount" with
      | some (.str nm), some q, some r, some a =>
          let sig := itemSig nm q r a
          if seen.contains sig then dedupItems seen rest
          else
            match dedupItems (sig :: seen) rest with
            | some rest' => some (item :: rest')
            | none => none
      | _, _, _, _ => none

/-- The page loop of `remove_duplicate_items`: duplicates are tracked per
page only, and pages left empty are dropped. -/
def dedupPages : List Json → Option (List Json)
  | [] => some []
  | page :: rest =>
      match page with
      | .obj _ =>
          (match page.get? "page_no", page.get? "page_type",
                 page.getD "bill_items" (.arr []) with
           | some pn, some pt, .arr items =>
               (match dedupItems [] items, dedupPages rest with
                | some cleaned, some rest' =>
                    if cleaned.isEmpty then some rest'
                    else some (Json.obj [("page_no", pn), ("page_type", pt),
                                         ("bill_items", .arr cleaned)] :: rest')
                | _, _ => none)
           | _, _, _ => none)
      | _ => none

/-- `remove_duplicate_items` (defined in the source, but deliberately not
called by the pipeline): removes, within each page only, items whose
signature already occurred on that page. -/
def remove_duplicate_items (data : Json) : Option Json :=
  match data.getD "pagewise_line_items" (.arr []) with
  | .arr pages =>
      (match dedupPages pages with
       | some pages' => some (.obj [("pagewise_line_items", .arr pages')])
       | none => none)
  | _ => none

/-! ## `utils/json_repair.py` — a model of `json.loads` -/

/-- JSON's insignificant whitespace. -/
def jsonWs (c : Char) : Bool := c = ' ' || c = '\t' || c = '\n' || c = '\r'

/-- Skip JSON whitespace. -/
def skipJWs (l : List Char) : List Char := l.dropWhile jsonWs

/-- Value of a hexadecimal digit, if any. -/
def hexVal (c : Char) : Option ℕ :=
  if '0' ≤ c ∧ c ≤ '9' then some (c.toNat - 48)
  else if 'a' ≤ c ∧ c ≤ 'f' then some (c.toNat - 87)
  else if 'A' ≤ c ∧ c ≤ 'F' then some (c.toNat - 55)
  else none

/-- Parse a JSON number (strict grammar: optional minus, no leading
zeros, optional fraction and exponent), returning its exact rational
value and the remaining input. -/
def parseJNum (cs : List Char) : Option (Json × List Char) :=
  let sgn : ℚ × List Char := match cs with | '-' :: r => (-1, r) | _ => (1, cs)
  let (ip, cs2) := takeDigits sgn.2
  if ip.isEmpty then none
  else if ip.length > 1 && ip.headD '0' = '0' then none
  else
    let fr : Option (List Char × List Char) :=
      match cs2 with
      | '.' :: r =>
          let (fp, r2) := takeDigits r
          if fp.isEmpty then none else some (fp, r2)
      | _ => some ([], cs2)
    match fr with
    | none => none
    | some (fp, cs3) =>
        let ex : Option (ℤ × List Char) :=
          match cs3 with
          | 'e' :: r =>
              let es : ℤ × List Char :=
                match r with
                | '-' :: r2 => (-1, r2)
                | '+' :: r2 => (1, r2)
                | _ => (1, r)
              let (ed, r3) := takeDigits es.2
              if ed.isEmpty then none else some (es.1 * (digitsVal ed : ℤ), r3)
          | 'E' :: r =>
              let es : ℤ × List Char :=
                match r with
                | '-' :: r2 => (-1, r2)
                | '+' :: r2 => (1, r2)
                | _ => (1, r)
              let (ed, r3) := takeDigits es.2
              if ed.isEmpty then none else some (es.1 * (digitsVal ed : ℤ), r3)
          | _ => some (0, cs3)
        match ex with
        | none => none
        | some (e, rest) =>
            let mant : ℚ := sgn.1 * ((digitsVal ip : ℚ) + (digitsVal fp : ℚ) / (10 : ℚ) ^ fp.length)
            some (.num (mant * (10 : ℚ) ^ e), rest)

/-- Parse the body of a JSON string literal (after the opening quote).
Strict mode: a raw control character (< U+0020) is an error; the usual
escapes are decoded. -/
def parseJStr : ℕ → List Char → List Char → Option (String × List Char)
  | 0, _, _ => none
  | fuel + 1, cs, acc =>
      match cs with
      | [] => none
      | '"' :: rest => some (⟨acc.reverse⟩, rest)
      | '\\' :: e :: rest =>
          (match e with
           | '"' => parseJStr fuel rest ('"' :: acc)
           | '\\' => parseJStr fuel rest ('\\' :: acc)
           | '/' => parseJStr fuel rest ('/' :: acc)
           | 'b' => parseJStr fuel rest ('\x08' :: acc)
           | 'f' => parseJStr fuel rest ('\x0c' :: acc)
           | 'n' => parseJStr fuel rest ('\n' :: acc)
           | 'r' => parseJStr fuel rest ('\r' :: acc)
           | 't' => parseJStr fuel rest ('\t' :: acc)
           | 'u' =>
               (match rest with
                | a :: b :: c :: d :: rest2 =>
                    (match hexVal a, hexVal b, hexVal c, hexVal d with
                     | some va, some vb, some vc, some vd =>
                         parseJStr fuel rest2
                           (Char.ofNat (va * 4096 + vb * 256 + vc * 16 + vd) :: acc)
                     | _, _, _, _ => none)
                | _ => none)
           | _ => none)
      | c :: rest =>
          if c.toNat < 0x20 then none else parseJStr fuel rest (c :: acc)

/-- Insert a key into an object, replacing an existing binding in place
(Python dicts keep the first insertion position, last value). -/
def insertKV : List (String × Json) → String → Json → List (String × Json)
  | [], k, v => [(k, v)]
  | (k0, v0) :: rest, k, v =>
      if k0 = k then (k0, v) :: rest else (k0, v0) :: insertKV rest k v

mutual

/-- Parse one JSON value (fueled recursive descent; the fuel is ample
for every input the development evaluates). -/
def parseJValue : ℕ → List Char → Option (Json × List Char)
  | 0, _ => none
  | fuel + 1, cs =>
      match skipJWs cs with
      | [] => none
      | '{' :: rest =>
          (match skipJWs rest with
           | '}' :: r2 => some (.obj [], r2)
           | r => parseJObjElems fuel r [])
      | '[' :: rest =>
          (match skipJWs rest with
           | ']' :: r2 => some (.arr [], r2)
           | r => parseJArrElems fuel r [])
      | '"' :: rest =>
          (match parseJStr fuel rest [] with
           | some (s, r) => some (.str s, r)
           | none => none)
      | 't' :: rest =>
          if ['r', 'u', 'e'].isPrefixOf rest then some (.bool true, rest.drop 3) else none
      | 'f' :: rest =>
          if ['a', 'l', 's', 'e'].isPrefixOf rest then some (.bool false, rest.drop 4) else none
      | 'n' :: rest =>
          if ['u', 'l', 'l'].isPrefixOf rest then some (.null, rest.drop 3) else none
      | cs' => parseJNum cs'

/-- Parse the elements of a non-empty JSON array. -/
def parseJArrElems : ℕ → List Char → List Json → Option (Json × List Char)
  | 0, _, _ => none
  | fuel + 1, cs, acc =>
      match parseJValue fuel cs with
      | none => none
      | some (v, r) =>
          match skipJWs r with
          | ',' :: r2 => parseJArrElems fuel (skipJWs r2) (v :: acc)
          | ']' :: r2 => some (.arr (v :: acc).reverse, r2)
          | _ => none

/-- Parse the members of a non-empty JSON object. -/
def parseJObjElems : ℕ → List Char → List (String × Json) → Option (Json × List Char)
  | 0, _, _ => none
  | fuel + 1, cs, acc =>
      match cs with
      | '"' :: rest =>
          (match parseJStr fuel rest [] with
           | none => none
           | some (k, r) =>
               match skipJWs r with
               | ':' :: r2 =>
                   (match parseJValue fuel (skipJWs r2) with
                    | none => none
                    | some (v, r3) =>
                        match skipJWs r3 with
                        | ',' :: r4 => parseJObjElems fuel (skipJWs r4) (insertKV acc k v)
                        | '}' :: r4 => some (.obj (insertKV acc k v), r4)
                        | _ => none)
               | _ => none)
      | _ => none

end

/-- `json.loads` (strict): parse one value and require only whitespace
after it.  (Python's `NaN`/`Infinity` extensions are not modelled; no
claim involves them.) -/
def pyLoads (s : String) : Option Json :=
  match parseJValue (4 * s.data.length + 16) s.data with
  | some (j, rest) => if (skipJWs rest).isEmpty then some j else none
  | none => none

/-! ## `utils/json_repair.py` — repair strategies -/

/-- Fueled worker for `removeFenceTok` (the fuel is always ample). -/
def removeFenceTokF (c0 : Char) (tokRest : List Char) : ℕ → List Char → List Char
  | 0, l => l
  | _ + 1, [] => []
  | f + 1, c :: cs =>
      if (c0 :: tokRest).isPrefixOf (c :: cs) then
        removeFenceTokF c0 tokRest f ((cs.drop tokRest.length).dropWhile pyIsWs)
      else c :: removeFenceTokF c0 tokRest f cs

/-- Worker for `clean_json_string`: delete every occurrence of the token
`c0 :: tokRest` together with the whitespace run that follows it,
scanning left to right (the behaviour of `re.sub(tok + r"\s*", "", s)`). -/
def removeFenceTok (c0 : Char) (tokRest l : List Char) : List Char :=
  removeFenceTokF c0 tokRest l.length l

/-- `clean_json_string`: strip markdown code fences (` ```json ` first,
then bare ` ``` `), then surrounding whitespace. -/
def clean_json_string (text : String) : String :=
  let t1 := removeFenceTok '`' "``json".data text.data
  let t2 := removeFenceTok '`' "``".data t1
  pyStrip ⟨t2⟩

/-- Scanner of `extract_json_object`: running (signed) depth over
`{`/`}`, remembering where the first `{` was; when the depth returns to
zero after a start was seen, the start/end index pair is produced. -/
def ejoAux : List Char → ℤ → Option ℕ → ℕ → Option (ℕ × ℕ)
  | [], _, _, _ => none
  | c :: cs, depth, start, i =>
      if c = '{' then
        ejoAux cs (depth + 1) (match start with | none => some i | some s => some s) (i + 1)
      else if c = '}' then
        (if depth - 1 = 0 ∧ start.isSome then start.map (fun s => (s, i))
         else ejoAux cs (depth - 1) start (i + 1))
      else ejoAux cs depth start (i + 1)

/-- `extract_json_object`: the substring from the first `{` to the brace
that first balances the running count. -/
def extract_json_object (text : String) : Option String :=
  match ejoAux text.data 0 none 0 with
  | some (s, e) => some ⟨(text.data.drop s).take (e - s + 1)⟩
  | none => none

/-- A line that "looks complete" to `fix_truncated_json` (after
stripping, it ends in a comma or closing bracket/brace). -/
def lineLooksClosed (line : List Char) : Bool :=
  let ls := pyStrip ⟨line⟩
  pyEndsWith ls "," || pyEndsWith ls "\x7d" || pyEndsWith ls "]" ||
  pyEndsWith ls "\x7d," || pyEndsWith ls "],"

/-- Index of the last line that looks complete, if any. -/
def lastClosedIdx (lines : List (List Char)) : Option ℕ :=
  (List.range lines.length).reverse.find? (fun i =>
    match lines.get? i with
    | some l => lineLooksClosed l
    | none => false)

/-- `fix_truncated_json`: strip fences, drop everything after the last
complete-looking line (only when its index is positive), drop one
trailing dangling comma, then append `]`s and `}`s until the counts
balance (brackets before braces). -/
def fix_truncated_json (text : String) : String :=
  let t := clean_json_string text
  let lines := splitLines t.data
  let t2 : List Char :=
    match lastClosedIdx lines with
    | some i =>
        if i > 0 then
          let kept := joinSep "\n" ((lines.take (i + 1)).map (fun l => (⟨l⟩ : String)))
          let kr := pyRstrip kept
          if pyEndsWith kr "," then kr.data.dropLast else kept.data
        else t.data
    | none => t.data
  let t3 := t2 ++ (List.replicate (countChar '[' t2 - countChar ']' t2) "\n]".data).flatten
  let t4 := t3 ++ (List.replicate (countChar '{' t2 - countChar '}' t2) "\n\x7d".data).flatten
  ⟨t4⟩

/-- Index of the last occurrence of a character (`s.rfind`). -/
def lastIdxOf (c : Char) (l : List Char) : Option ℕ :=
  match l.reverse.findIdx? (· = c) with
  | some i => some (l.length - 1 - i)
  | none => none

/-- Per-line quote repair of `fix_unterminated_strings`: a line that is
not a lone bracket and has an odd count of unescaped quotes gets a
closing quote at a heuristic position. -/
def fixLine (line : List Char) : List Char :=
  let ls := pyStrip ⟨line⟩
  if ls = "\x7b" || ls = "\x7d" || ls = "[" || ls = "]" || ls = "," then line
  else
    let qc := countChar '"' line - countSub ['\\', '"'] line
    if qc % 2 ≠ 0 then
      let lr := pyRstrip ⟨line⟩
      if pyEndsWith lr "," then lr.data.dropLast ++ ['"', ',']
      else if pyEndsWith lr "\x7d" || pyEndsWith lr "]" then
        match lastIdxOf '"' line with
        | some lq =>
            if lq > 0 then line.take lq ++ ['"'] ++ line.drop (lq + 1) else line
        | none => line
      else lr.data ++ ['"']
    else line

/-- `fix_unterminated_strings`: first apply the truncation fix, then the
per-line quote repair. -/
def fix_unterminated_strings (text : String) : String :=
  let t := fix_truncated_json text
  joinSep "\n" ((splitLines t.data).map (fun l => (⟨fixLine l⟩ : String)))

/-- First substitution of `escape_control_characters`:
`re.sub(r"(?<!\\)\n(?![}\]])", r"\\n", text)` — a newline not preceded
by a backslash and not followed by `}` or `]` becomes the two-character
escape. -/
def escNLGo : Option Char → List Char → List Char
  | _, [] => []
  | prev, c :: rest =>
      if c = '\n' then
        if prev ≠ some '\\' ∧
           (match rest.head? with
            | some '}' => false
            | some ']' => false
            | _ => true) = true then
          '\\' :: 'n' :: escNLGo (some '\n') rest
        else c :: escNLGo (some c) rest
      else c :: escNLGo (some c) rest

/-- The second and third substitutions: `(?<!\\)\r` and `(?<!\\)\t`. -/
def escSimpleGo (target rep : Char) : Option Char → List Char → List Char
  | _, [] => []
  | prev, c :: rest =>
      if c = target ∧ prev ≠ some '\\' then
        '\\' :: rep :: escSimpleGo target rep (some c) rest
      else c :: escSimpleGo target rep (some c) rest

/-- `escape_control_characters`: three chained raw-control-character
substitutions, each on the previous one's output. -/
def escape_control_characters (text : String) : String :=
  let t1 := escNLGo none text.data
  let t2 := escSimpleGo '\r' 'r' none t1
  let t3 := escSimpleGo '\t' 't' none t2
  ⟨t3⟩

/-- Strategy 3 of `repair_json`: extract the outermost brace pair and
parse it; a missing or empty (falsy) extraction falls through without a
parse attempt. -/
def braceExtractParse (text : String) : Option Json :=
  match extract_json_object text with
  | some ex => if ex.data.isEmpty then none else pyLoads ex
  | none => none

/-- Strategy 6 of `repair_json`: strip fences, extract the brace pair,
fix unterminated strings, escape control characters, parse. -/
def combinedRepairParse (text : String) : Option Json :=
  match extract_json_object (clean_json_string text) with
  | some ex =>
      if ex.data.isEmpty then none
      else pyLoads (escape_control_characters (fix_unterminated_strings ex))
  | none => none

/-- `repair_json`: the cascade of repair strategies exactly as ordered in
the source — direct parse; fence-stripped parse; brace-extraction parse;
`fix_unterminated_strings` (which itself layers on the truncation fix)
applied to the raw text; `escape_control_characters` applied to the raw
text; the combined pass (strip fences, extract braces, fix strings,
escape controls); the `json5` fallback is not among the repository's
dependencies, so its `ImportError` is caught and the strategy yields
nothing. -/
def repair_json (text : String) : Option Json :=
  if text.data.isEmpty || (pyStrip text).data.isEmpty then none
  else
    match pyLoads text with
    | some j => some j
    | none =>
    match pyLoads (clean_json_string text) with
    | some j => some j
    | none =>
    match braceExtractParse text with
    | some j => some j
    | none =>
    match pyLoads (fix_unterminated_strings text) with
    | some j => some j
    | none =>
    match pyLoads (escape_control_characters text) with
    | some j => some j
    | none =>
    match combinedRepairParse text with
    | some j => some j
    | none => none

/-- Structural check on one bill item: a dict carrying all four fields. -/
def checkBillItem : Json → Bool
  | .obj kvs =>
      ["item_name", "item_quantity", "item_rate", "item_amount"].all
        (fun f => (kvs.lookup f).isSome)
  | _ => false

/-- Structural check on one page: a dict carrying all three fields whose
`bill_items` is a list of well-formed items. -/
def checkPage : Json → Bool
  | .obj kvs =>
      (["page_no", "page_type", "bill_items"].all (fun f => (kvs.lookup f).isSome)) &&
      (match kvs.lookup "bill_items" with
       | some (.arr l) => l.all checkBillItem
       | _ => false)
  | _ => false

/-- `validate_invoice_structure`. -/
def validate_invoice_structure : Json → Bool
  | .obj kvs =>
      (match kvs.lookup "pagewise_line_items" with
       | some (.arr l) => l.all checkPage
       | _ => false)
  | _ => false

/-- `get_empty_invoice_structure`. -/
def get_empty_invoice_structure : Json := .obj [("pagewise_line_items", .arr [])]

/-! ## `services/llm_wrapper.py` -/

/-- The token-usage triple every `_call_*` backend constructs. -/
structure TokenUsage where
  total_tokens : ℕ
  input_tokens : ℕ
  output_tokens : ℕ
deriving DecidableEq

/-- Componentwise accumulation of usage counters. -/
def addUsage (a b : TokenUsage) : TokenUsage :=
  ⟨a.total_tokens + b.total_tokens, a.input_tokens + b.input_tokens,
   a.output_tokens + b.output_tokens⟩

/-- The all-zero usage the accumulators start from. -/
def zeroUsage : TokenUsage := ⟨0, 0, 0⟩

/-- Componentwise sum over a list of usage triples. -/
def sumUsage (l : List TokenUsage) : TokenUsage := l.foldr addUsage zeroUsage

/-- The response post-processing of `_call_gemini` (after the network
call produced `response_text` and `token_usage`): repair the text; on
total repair failure return the empty structure with the usage; on a
structurally invalid parse keep the parse when its
`pagewise_line_items` entry is truthy, substitute the empty structure
when the parse is a dict without truthy pages, and raise
(`none`, an `AttributeError` from `.get` on a non-dict) otherwise. -/
def gemini_handle_response (response_text : String) (token_usage : TokenUsage) :
    Option (Json × TokenUsage) :=
  match repair_json response_text with
  | none => some (get_empty_invoice_structure, token_usage)
  | some parsed =>
      if validate_invoice_structure parsed then some (parsed, token_usage)
      else
        match parsed with
        | .obj _ =>
            if (parsed.getD "pagewise_line_items" .null).truthy then
              some (parsed, token_usage)
            else some (get_empty_invoice_structure, token_usage)
        | _ => none

/-- The response post-processing of `_call_ollama`: repair the text; on
total repair failure return the empty structure with the usage; on a
structurally invalid parse always substitute the empty structure. -/
def ollama_handle_response (response_text : String) (token_usage : TokenUsage) :
    Json × TokenUsage :=
  match repair_json response_text with
  | none => (get_empty_invoice_structure, token_usage)
  | some parsed =>
      if validate_invoice_structure parsed then (parsed, token_usage)
      else (get_empty_invoice_structure, token_usage)

/-- Fueled worker for `chunkSlices` (the slices produced by
`for i in range(0, len(l), c): l[i:i+c]`; `chunk_size = 0` would raise
in Python and is never used; it yields no slices here). -/
def chunkSlicesF {ι : Type} : ℕ → ℕ → List ι → List (List ι)
  | 0, _, _ => []
  | _ + 1, _, [] => []
  | _ + 1, 0, _ :: _ => []
  | f + 1, c + 1, x :: xs =>
      (x :: xs).take (c + 1) :: chunkSlicesF f (c + 1) ((x :: xs).drop (c + 1))

/-- The slices of `for i in range(0, len(l), c): l[i:i+c]`, via an
always-ample fuel. -/
def chunkSlices {ι : Type} (c : ℕ) (l : List ι) : List (List ι) := chunkSlicesF l.length c l

/-- One iteration of the chunk loop of `_process_in_chunks`.  The
backend invocation is `call` (`none` models a raised exception).  The
whole body sits in one `try`: a raised invocation, a `.get` on a
non-dict result, or an `extend` of a non-iterable each skip the chunk,
contributing neither pages nor tokens. -/
def chunkStep {ι : Type} (call : List ι → Option (Json × TokenUsage))
    (acc : List Json × TokenUsage) (chunk : List ι) : List Json × TokenUsage :=
  match call chunk with
  | none => acc
  | some (result, token_usage) =>
      match result with
      | .obj _ =>
          (match pyIterElems (result.getD "pagewise_line_items" (.arr [])) with
           | some elems => (acc.1 ++ elems, addUsage acc.2 token_usage)
           | none => acc)
      | _ => acc

/-- `_process_in_chunks`: run the backend once per slice in order,
accumulating pages and token counters; failed chunks are skipped. -/
def process_in_chunks {ι : Type} (call : List ι → Option (Json × TokenUsage))
    (image_paths : List ι) (chunk_size : ℕ) : Json × TokenUsage :=
  let r := (chunkSlices chunk_size image_paths).foldl (chunkStep call) ([], zeroUsage)
  (.obj [("pagewise_line_items", .arr r.1)], r.2)

/-- `process_with_structured_output`: documents larger than the
configured batch size go through `_process_in_chunks` (which never
raises); smaller ones are one direct backend call whose exception, if
any, propagates (`none`). -/
def process_with_structured_output {ι : Type}
    (call : List ι → Option (Json × TokenUsage)) (image_paths : List ι)
    (pages_per_chunk : ℕ) : Option (Json × TokenUsage) :=
  if image_paths.length > pages_per_chunk then
    some (process_in_chunks call image_paths pages_per_chunk)
  else call image_paths

/-! ## `utils/retry.py` -/

/-- The configuration record of `RetryConfig`. -/
structure RetryConfig where
  max_retries : ℕ
  initial_delay : ℚ
  max_delay : ℚ
  exponential_base : ℚ
deriving DecidableEq

/-- The attempt loop of `retry_with_config`.  `op k` is the wrapped
call's outcome on attempt `k` (`Except.error` models a raised
exception); `fuel` counts the retries still allowed.  The result records
the outcome, the backoff sleeps performed in order, and how many times
the operation was invoked. -/
def retryExec {ε α : Type} (cfg : RetryConfig) (op : ℕ → Except ε α) :
    ℕ → ℕ → ℚ → List ℚ → Except ε α × List ℚ × ℕ
  | attempt, fuel, delay, sleeps =>
      match op attempt with
      | .ok a => (.ok a, sleeps.reverse, attempt + 1)
      | .error e =>
          match fuel with
          | 0 => (.error e, sleeps.reverse, attempt + 1)
          | f + 1 =>
              retryExec cfg op (attempt + 1) f
                (ratMin (delay * cfg.exponential_base) cfg.max_delay) (delay :: sleeps)

/-- `retry_with_config`: up to `max_retries + 1` attempts, sleeping
`delay` between failures, doubling (by `exponential_base`) up to
`max_delay`; if all attempts fail, the final attempt's exception is
re-raised. -/
def retry_with_config {ε α : Type} (cfg : RetryConfig) (op : ℕ → Except ε α) :
    Except ε α × List ℚ × ℕ :=
  retryExec cfg op 0 cfg.max_retries cfg.initial_delay []

/-! ## `services/invoices_ocr_service.py` -/

/-- The `BillItem` pydantic model. -/
structure BillItem where
  item_name : String
  item_amount : ℚ
  item_rate : ℚ
  item_quantity : ℚ
deriving DecidableEq

/-- The `PagewiseLineItems` pydantic model. -/
structure PagewiseLineItems where
  page_no : String
  page_type : String
  bill_items : List BillItem
deriving DecidableEq

/-- The `InvoiceData` pydantic model. -/
structure InvoiceData where
  pagewise_line_items : List PagewiseLineItems
  total_item_count : ℕ
deriving DecidableEq

/-- The guarded `BillItem` construction inside `_calculate_totals`: a
missing key, a non-string name (pydantic) or an unconvertible `float()`
argument raises, which the `except` turns into skipping the item. -/
def mkBillItem (item : Json) : Option BillItem := do
  let nmj ← item.get? "item_name"
  let nm ← match nmj with | .str s => some s | _ => none
  let a ← pyFloat (← item.get? "item_amount")
  let r ← pyFloat (← item.get? "item_rate")
  let q ← pyFloat (← item.get? "item_quantity")
  some ⟨nm, a, r, q⟩

/-- The page loop of `_calculate_totals`; `none` models an uncaught
exception (non-dict page, missing `page_no`, non-iterable items). -/
def calcPages : List Json → Option (List PagewiseLineItems × ℕ)
  | [] => some ([], 0)
  | page :: rest =>
      match page with
      | .obj _ =>
          (match pyIterElems (page.getD "bill_items" (.arr [])) with
           | none => none
           | some items =>
               let bis := items.filterMap mkBillItem
               let pt := match page.getD "page_type" (.str "Bill Detail") with
                 | .str s => if valid_types.contains s then s else "Bill Detail"
                 | _ => "Bill Detail"
               if bis.isEmpty then calcPages rest
               else
                 match page.get? "page_no", calcPages rest with
                 | some pnj, some (ps, n) => some (⟨pyStrJ pnj, pt, bis⟩ :: ps, n + bis.length)
                 | _, _ => none)
      | _ => none

/-- `_calculate_totals`: validate/clean the extracted data (the
duplicate-removal helper is deliberately skipped, per the source
comment), then build the final `InvoiceData`, dropping pages without
items and counting every surviving item. -/
def calculate_totals (extracted_data : Json) : Option InvoiceData :=
  let validated := validate_and_clean_invoice_data extracted_data
  let cleaned := validated
  match cleaned.getD "pagewise_line_items" (.arr []) with
  | .arr pages =>
      (match calcPages pages with
       | some (ps, n) => some ⟨ps, n⟩
       | none => none)
  | _ => none

/-! ## Claim C3 — the zero-amount reconciliation rule -/

/-- A bill item whose coerced amount is zero and whose quantity×rate is
positive but below the 0.01 mismatch tolerance. -/
def itemC3cx : Json :=
  .obj [("item_name", .str "Consultation"), ("item_quantity", .num 1),
        ("item_rate", .num (1/100)), ("item_amount", .num 0)]

/-- C3, counterexample: for this item the coerced amount is exactly zero
and coerced quantity × rate is positive, yet `validate_bill_item` does
not overwrite the amount with the product (the overwrite is gated by the
0.01 mismatch tolerance, which `0.01 ≤ 0.01` fails). -/
theorem C3_counterexample :
    validate_numeric_field (itemC3cx.getD "item_amount" (.num 0)) 0 = 0 ∧
    0 < validate_numeric_field (itemC3cx.getD "item_quantity" (.num 1)) 1 *
        validate_numeric_field (itemC3cx.getD "item_rate" (.num 0)) 0 ∧
    (validate_bill_item itemC3cx).getD "item_amount" .null ≠
      .num (validate_numeric_field (itemC3cx.getD "item_quantity" (.num 1)) 1 *
            validate_numeric_field (itemC3cx.getD "item_rate" (.num 0)) 0) := by
  refine ⟨by decide, by decide, by decide⟩

/-- C3, amended: if the coerced amount is exactly zero and the coerced
quantity × rate exceeds the 0.01 tolerance, validation overwrites the
amount with that product; the output quantity and rate are always the
coercions of the input quantity and rate fields alone — never recomputed
from the amount. -/
theorem C3_zero_amount_amended (item : Json) :
    (validate_numeric_field (item.getD "item_amount" (.num 0)) 0 = 0 →
      1/100 < validate_numeric_field (item.getD "item_quantity" (.num 1)) 1 *
              validate_numeric_field (item.getD "item_rate" (.num 0)) 0 →
      (validate_bill_item item).getD "item_amount" .null =
        .num (validate_numeric_field (item.getD "item_quantity" (.num 1)) 1 *
              validate_numeric_field (item.getD "item_rate" (.num 0)) 0)) ∧
    (validate_bill_item item).getD "item_quantity" .null =
      .num (validate_numeric_field (item.getD "item_quantity" (.num 1)) 1) ∧
    (validate_bill_item item).getD "item_rate" .null =
      .num (validate_numeric_field (item.getD "item_rate" (.num 0)) 0) := by
  unfold validate_bill_item
  set q := validate_numeric_field (item.getD "item_quantity" (.num 1)) 1 with hq
  set r := validate_numeric_field (item.getD "item_rate" (.num 0)) 0 with hr
  set a := validate_numeric_field (item.getD "item_amount" (.num 0)) 0 with ha
  refine ⟨?_, ?_, ?_⟩
  · intro h0 hlt
    have hpos : 0 < q * r := lt_trans (by norm_num) hlt
    have habs : ratAbs (q * r - a) = q * r := by
      rw [h0, sub_zero, ratAbs, if_neg (not_lt.mpr (le_of_lt hpos))]
    simp only [Json.getD, Json.get?, List.lookup]
    rw [if_pos ⟨by rw [habs]; exact hlt, hpos⟩, if_pos ⟨h0, hpos⟩]
    rfl
  · simp only [Json.getD, Json.get?, List.lookup]; rfl
  · simp only [Json.getD, Json.get?, List.lookup]; rfl

/-- A well-behaved item for the C3 witness: amount 0, quantity 2, rate 5. -/
def itemC3w : Json :=
  .obj [("item_name", .str "Dressing"), ("item_quantity", .num 2),
        ("item_rate", .num 5), ("item_amount", .num 0)]

/-- Witness for the amended C3 at a concrete item. -/
theorem C3_zero_amount_witness :
    (validate_bill_item itemC3w).getD "item_amount" .null =
      .num (validate_numeric_field (itemC3w.getD "item_quantity" (.num 1)) 1 *
            validate_numeric_field (itemC3w.getD "item_rate" (.num 0)) 0) :=
  (C3_zero_amount_amended itemC3w).1 (by decide) (by decide)

/-! ## Claim C6 — the non-billable keyword filter -/

/-- The strongly-specific keyword set exactly as the claim lists it
(without the code's additional `SUB-TOTAL`). -/
def spec_strong_keywords : List String :=
  ["DISCOUNT", "SUBTOTAL", "SUB TOTAL", "GRAND TOTAL", "NET TOTAL",
   "AMOUNT TOTAL", "ROUND OFF", "ROUNDING"]

/-- A reading of the claim's "separated by a space or punctuation". -/
def spec_punct_separators : List Char := [' ', ':', ',', ';', '.', '-', '(', ')', '/']

/-- The filter condition as claim C6 states it: a strong keyword as a
substring, or a generic keyword matched exactly or as a prefix/suffix
separated by a space or punctuation. -/
def spec_non_billable (name : String) : Bool :=
  let nu := pyStrip (pyUpper name)
  spec_strong_keywords.any (fun k => pyContains nu k) ||
  exactKeywords.any (fun k =>
    nu == k || spec_punct_separators.any (fun c =>
      pyStartsWith nu (k ++ (⟨[c]⟩ : String)) || pyEndsWith nu ((⟨[c]⟩ : String) ++ k)))

/-- C6, counterexample: `"SUB-TOTALS"` is removed by the code (the code's
strong list also contains `SUB-TOTAL`, matched as a substring) although
the claim's condition does not cover it — `TOTAL` occurs only inside the
longer token `SUB-TOTALS`, with no boundary match. -/
theorem C6_counterexample :
    is_discount_or_total_row "SUB-TOTALS" = true ∧
    spec_non_billable "SUB-TOTALS" = false := by
  refine ⟨by decide, by decide⟩

/-- C6, amended: the filter removes a name exactly when its uppercased,
stripped form contains one of the code's strong keywords (which include
`SUB-TOTAL`) as a substring, or equals a generic keyword, or starts with
one followed by a space or a colon, or ends with one preceded by a space
or a colon — the only boundary separators the code tests. -/
theorem C6_keyword_filter_amended (name : String) :
    is_discount_or_total_row name = true ↔
      ((∃ k ∈ strongKeywords, pyContains (pyStrip (pyUpper name)) k = true) ∨
       (∃ k ∈ exactKeywords, pyStrip (pyUpper name) = k ∨
          pyStartsWith (pyStrip (pyUpper name)) (k ++ " ") = true ∨
          pyStartsWith (pyStrip (pyUpper name)) (k ++ ":") = true ∨
          pyEndsWith (pyStrip (pyUpper name)) (" " ++ k) = true ∨
          pyEndsWith (pyStrip (pyUpper name)) (":" ++ k) = true)) := by
  by_cases h : name.data.isEmpty
  · have hname : name = "" := by
      cases name with
      | mk d => cases d with
        | nil => rfl
        | cons c cs => simp [List.isEmpty] at h
    subst hname
    decide
  · unfold is_discount_or_total_row
    rw [if_neg h]
    simp only [Bool.or_eq_true, List.any_eq_true, beq_iff_eq, or_assoc]

/-- Witness for the amended C6 at a concrete name. -/
theorem C6_keyword_filter_witness :
    (∃ k ∈ strongKeywords, pyContains (pyStrip (pyUpper "NET TOTAL CHARGES")) k = true) ∨
    (∃ k ∈ exactKeywords, pyStrip (pyUpper "NET TOTAL CHARGES") = k ∨
       pyStartsWith (pyStrip (pyUpper "NET TOTAL CHARGES")) (k ++ " ") = true ∨
       pyStartsWith (pyStrip (pyUpper "NET TOTAL CHARGES")) (k ++ ":") = true ∨
       pyEndsWith (pyStrip (pyUpper "NET TOTAL CHARGES")) (" " ++ k) = true ∨
       pyEndsWith (pyStrip (pyUpper "NET TOTAL CHARGES")) (":" ++ k) = true) :=
  (C6_keyword_filter_amended "NET TOTAL CHARGES").mp (by decide)

/-! ## Claim C9 — the retry controller -/

/-- The successive backoff delays: start at `d`, multiply by the base and
cap at `max_delay` each step. -/
def delaySeq (cfg : RetryConfig) : ℚ → ℕ → List ℚ
  | _, 0 => []
  | d, f + 1 => d :: delaySeq cfg (ratMin (d * cfg.exponential_base) cfg.max_delay) f

theorem retryExec_count_le {ε α : Type} (cfg : RetryConfig) (op : ℕ → Except ε α) :
    ∀ fuel attempt delay sleeps,
      (retryExec cfg op attempt fuel delay sleeps).2.2 ≤ attempt + fuel + 1 := by
  intro fuel
  induction fuel with
  | zero =>
      intro attempt delay sleeps
      unfold retryExec
      cases op attempt <;> simp
  | succ f ih =>
      intro attempt delay sleeps
      unfold retryExec
      cases op attempt with
      | ok a => simp
      | error e =>
          simp only
          have := ih (attempt + 1)
            (ratMin (delay * cfg.exponential_base) cfg.max_delay) (delay :: sleeps)
          omega

theorem retryExec_first_success {ε α : Type} (cfg : RetryConfig) (op : ℕ → Except ε α) :
    ∀ j fuel attempt delay sleeps (a : α), j ≤ fuel →
      (∀ i, i < j → ∃ e, op (attempt + i) = .error e) →
      op (attempt + j) = .ok a →
      (retryExec cfg op attempt fuel delay sleeps).1 = .ok a ∧
      (retryExec cfg op attempt fuel delay sleeps).2.2 = attempt + j + 1 := by
  intro j
  induction j with
  | zero =>
      intro fuel attempt delay sleeps a _ _ hok
      unfold retryExec
      rw [show attempt + 0 = attempt from rfl] at hok
      rw [hok]
      exact ⟨rfl, rfl⟩
  | succ k ih =>
      intro fuel attempt delay sleeps a hle hfail hok
      obtain ⟨e, he⟩ := hfail 0 (Nat.succ_pos k)
      rw [Nat.add_zero] at he
      obtain ⟨f, rfl⟩ : ∃ f, fuel = f + 1 := ⟨fuel - 1, by omega⟩
      unfold retryExec
      rw [he]
      simp only
      have hfail' : ∀ i, i < k → ∃ e, op (attempt + 1 + i) = .error e := by
        intro i hi
        have := hfail (i + 1) (by omega)
        rwa [show attempt + (i + 1) = attempt + 1 + i by omega] at this
      have hok' : op (attempt + 1 + k) = .ok a := by
        rwa [show attempt + (k + 1) = attempt + 1 + k by omega] at hok
      have := ih f (attempt + 1)
        (ratMin (delay * cfg.exponential_base) cfg.max_delay) (delay :: sleeps) a
        (by omega) hfail' hok'
      refine ⟨this.1, ?_⟩
      rw [this.2]
      omega

theorem retryExec_all_fail {ε α : Type} (cfg : RetryConfig) (op : ℕ → Except ε α) :
    ∀ fuel attempt delay sleeps,
      (∀ i, i ≤ fuel → ∃ e, op (attempt + i) = .error e) →
      (∃ e, op (attempt + fuel) = .error e ∧
        retryExec cfg op attempt fuel delay sleeps =
          (.error e, sleeps.reverse ++ delaySeq cfg delay fuel, attempt + fuel + 1)) := by
  intro fuel
  induction fuel with
  | zero =>
      intro attempt delay sleeps hfail
      obtain ⟨e, he⟩ := hfail 0 (le_refl 0)
      rw [Nat.add_zero] at he
      refine ⟨e, by rw [Nat.add_zero]; exact he, ?_⟩
      unfold retryExec
      rw [he]
      simp [delaySeq]
  | succ f ih =>
      intro attempt delay sleeps hfail
      obtain ⟨e0, he0⟩ := hfail 0 (Nat.zero_le _)
      rw [Nat.add_zero] at he0
      have hfail' : ∀ i, i ≤ f → ∃ e, op (attempt + 1 + i) = .error e := by
        intro i hi
        have := hfail (i + 1) (by omega)
        rwa [show attempt + (i + 1) = attempt + 1 + i by omega] at this
      obtain ⟨e, he, hrec⟩ := ih (attempt + 1)
        (ratMin (delay * cfg.exponential_base) cfg.max_delay) (delay :: sleeps) hfail'
      refine ⟨e, ?_, ?_⟩
      · rwa [show attempt + (f + 1) = attempt + 1 + f by omega]
      · unfold retryExec
        rw [he0]
        simp only
        rw [hrec]
        simp [delaySeq, Prod.ext_iff]
        omega

theorem delaySeq_length (cfg : RetryConfig) :
    ∀ (f : ℕ) (d : ℚ), (delaySeq cfg d f).length = f := by
  intro f
  induction f with
  | zero => intro d; rfl
  | succ n ih => intro d; simp [delaySeq, ih]

theorem delaySeq_get (cfg : RetryConfig) (hbase : cfg.exponential_base = 2) :
    ∀ (f : ℕ) (d : ℚ), 0 ≤ d → d ≤ cfg.max_delay →
      ∀ k, k < f → (delaySeq cfg d f)[k]? = some (min (d * 2 ^ k) cfg.max_delay) := by
  intro f
  induction f with
  | zero => intro d _ _ k hk; omega
  | succ n ih =>
      intro d h0 hle k hk
      cases k with
      | zero =>
          simp [delaySeq, min_eq_left (by simpa using hle)]
      | succ k =>
          have hmax0 : (0 : ℚ) ≤ cfg.max_delay := le_trans h0 hle
          have h2d : (0 : ℚ) ≤ d * 2 := by positivity
          have hd' : ratMin (d * cfg.exponential_base) cfg.max_delay =
              min (d * 2) cfg.max_delay := by
            rw [hbase, ratMin, min_def]
          have h0' : (0 : ℚ) ≤ min (d * 2) cfg.max_delay := le_min h2d hmax0
          have hle' : min (d * 2) cfg.max_delay ≤ cfg.max_delay := min_le_right _ _
          have := ih (min (d * 2) cfg.max_delay) h0' hle' k (by omega)
          simp only [delaySeq, hd', List.getElem?_cons_succ]
          rw [this]
          congr 1
          rcases le_total (d * 2) cfg.max_delay with h | h
          · rw [min_eq_left h, pow_succ]
            ring_nf
          · rw [min_eq_right h]
            have h1 : cfg.max_delay ≤ cfg.max_delay * 2 ^ k :=
              le_mul_of_one_le_right hmax0 (one_le_pow₀ (by norm_num))
            have h2 : cfg.max_delay ≤ d * 2 ^ (k + 1) := by
              calc cfg.max_delay ≤ d * 2 := h
                _ ≤ d * 2 * 2 ^ k := le_mul_of_one_le_right h2d (one_le_pow₀ (by norm_num))
                _ = d * 2 ^ (k + 1) := by rw [pow_succ]; ring
            rw [min_eq_right h1, min_eq_right h2]

/-- C9, amended: for base-2 configurations with
`0 ≤ initial_delay ≤ max_delay`, the controller invokes the operation at
most `max_retries + 1` times; it returns at the first success with
exactly `k + 1` invocations; and on total failure it re-raises the final
attempt's exception, sleeps exactly `max_retries` times, the `k`-th
sleep lasting `min(initial_delay * 2^k, max_delay)` seconds.  (Without
the added `initial_delay ≤ max_delay` hypothesis the sleep formula
fails: the first sleep is the uncapped `initial_delay`.) -/
theorem C9_retry_amended {ε α : Type} (cfg : RetryConfig) (op : ℕ → Except ε α)
    (hbase : cfg.exponential_base = 2)
    (h0 : 0 ≤ cfg.initial_delay) (hle : cfg.initial_delay ≤ cfg.max_delay) :
    (retry_with_config cfg op).2.2 ≤ cfg.max_retries + 1 ∧
    (∀ k (a : α), k ≤ cfg.max_retries → (∀ i, i < k → ∃ e, op i = .error e) →
      op k = .ok a →
      (retry_with_config cfg op).1 = .ok a ∧ (retry_with_config cfg op).2.2 = k + 1) ∧
    ((∀ i, i ≤ cfg.max_retries → ∃ e, op i = .error e) →
      (∃ e, op cfg.max_retries = .error e ∧ (retry_with_config cfg op).1 = .error e) ∧
      (retry_with_config cfg op).2.1.length = cfg.max_retries ∧
      (∀ k, k < cfg.max_retries →
        (retry_with_config cfg op).2.1[k]? =
          some (min (cfg.initial_delay * 2 ^ k) cfg.max_delay))) := by
  refine ⟨?_, ?_, ?_⟩
  · have := retryExec_count_le cfg op cfg.max_retries 0 cfg.initial_delay []
    unfold retry_with_config
    omega
  · intro k a hk hfail hok
    have := retryExec_first_success cfg op k cfg.max_retries 0 cfg.initial_delay [] a hk
      (by simpa using hfail) (by simpa using hok)
    unfold retry_with_config
    exact ⟨this.1, by rw [this.2]; omega⟩
  · intro hfail
    obtain ⟨e, he, heq⟩ := retryExec_all_fail cfg op cfg.max_retries 0 cfg.initial_delay []
      (by simpa using hfail)
    unfold retry_with_config
    rw [Nat.zero_add] at he heq
    refine ⟨⟨e, he, by rw [heq]⟩, ?_, ?_⟩
    · rw [heq]
      simp [delaySeq_length]
    · intro k hk
      rw [heq]
      simp only [List.reverse_nil, List.nil_append]
      exact delaySeq_get cfg hbase cfg.max_retries cfg.initial_delay h0 hle k hk

/-- An operation that fails on every attempt. -/
def opC9cx : ℕ → Except ℕ ℕ := fun _ => .error 0

/-- C9, counterexample: with `initial_delay = 20 > max_delay = 10` the
first backoff sleep lasts 20 seconds, not the claimed
`min(initial_delay * 2^0, max_delay) = 10` — the code never caps the
initial delay. -/
theorem C9_counterexample :
    (retry_with_config ⟨1, 20, 10, 2⟩ opC9cx).2.1[0]? = some 20 ∧
    min ((20 : ℚ) * 2 ^ 0) 10 ≠ 20 := by
  constructor
  · decide
  · rw [min_def]
    norm_num

/-- Witness for the amended C9 at a concrete configuration. -/
theorem C9_retry_witness :
    (retry_with_config ⟨2, 1, 10, 2⟩ opC9cx).2.1.length = 2 ∧
    (retry_with_config ⟨2, 1, 10, 2⟩ opC9cx).2.2 ≤ 3 := by
  have h := C9_retry_amended ⟨2, 1, 10, 2⟩ opC9cx rfl (by norm_num) (by norm_num)
  exact ⟨(h.2.2 (fun i _ => ⟨0, rfl⟩)).2.1, h.1⟩

/-! ## Claim C7 — order and layering of the repair cascade -/

/-- The repair cascade in the order and layering the specification
describes (claim C7): after the brace-extraction strategy it parses the
truncation fix alone (spec strategy 4), then the unterminated-string fix
layered on it (spec strategy 5), then the control-character escape
applied to strategy 5's output (spec strategy 6), then the combined
pass; the relaxed-grammar fallback is unavailable, as in the code. -/
def spec_repair_cascade (text : String) : Option Json :=
  if text.data.isEmpty || (pyStrip text).data.isEmpty then none
  else
    match pyLoads text with
    | some j => some j
    | none =>
    match pyLoads (clean_json_string text) with
    | some j => some j
    | none =>
    match braceExtractParse text with
    | some j => some j
    | none =>
    match pyLoads (fix_truncated_json text) with
    | some j => some j
    | none =>
    match pyLoads (fix_unterminated_strings text) with
    | some j => some j
    | none =>
    match pyLoads (escape_control_characters (fix_unterminated_strings text)) with
    | some j => some j
    | none =>
    match combinedRepairParse text with
    | some j => some j
    | none => none

/-- A response whose only defect is a raw newline inside a string value. -/
def textC7cx : String := "\x7b\"a\": \"x\ny\"\x7d"

/-- C7, counterexample: the code's cascade recovers this text (its
strategy 5 escapes control characters in the *raw* text), while the
cascade with the claimed layering — escaping applied on top of the
unterminated-string fix's output — fails every strategy: the quote fix
first inserts a spurious quote, after which no later strategy parses. -/
theorem C7_counterexample :
    repair_json textC7cx = some (.obj [("a", .str "x\ny")]) ∧
    spec_repair_cascade textC7cx = none := by
  refine ⟨by decide, by decide⟩

/-- C7, amended: the cascade parses, in order and short-circuiting on the
first success: the raw text; the fence-stripped text; the extracted brace
pair; the unterminated-string fix (which the second conjunct shows is
layered on the truncation fix's output); the control-character escape of
the *raw* text (not of strategy 5's output); and the combined pass. -/
theorem C7_cascade_amended (text : String) :
    (repair_json text =
      if text.data.isEmpty || (pyStrip text).data.isEmpty then none
      else
        (pyLoads text).orElse (fun _ =>
        (pyLoads (clean_json_string text)).orElse (fun _ =>
        (braceExtractParse text).orElse (fun _ =>
        (pyLoads (fix_unterminated_strings text)).orElse (fun _ =>
        (pyLoads (escape_control_characters text)).orElse (fun _ =>
        combinedRepairParse text)))))) ∧
    fix_unterminated_strings text =
      joinSep "\n" ((splitLines (fix_truncated_json text).data).map
        (fun l => (⟨fixLine l⟩ : String))) := by
  constructor
  · unfold repair_json
    by_cases h : (text.data.isEmpty || (pyStrip text).data.isEmpty) = true
    · rw [if_pos h, if_pos h]
    · rw [if_neg h, if_neg h]
      cases pyLoads text <;>
        cases pyLoads (clean_json_string text) <;>
        cases braceExtractParse text <;>
        cases pyLoads (fix_unterminated_strings text) <;>
        cases pyLoads (escape_control_characters text) <;>
        cases combinedRepairParse text <;>
        rfl
  · rfl

/-! ## Claim C1 — backend handling of repair failures and invalid structures -/

/-- Valid JSON that fails structural validation (the page lacks
`page_type` and `bill_items`) while its pages sequence is non-empty. -/
def textC1cx : String := "\x7b\"pagewise_line_items\": [\x7b\"page_no\": \"1\"\x7d]\x7d"

/-- C1, counterexample: this response parses (so repair succeeds), fails
structural validation, and carries a non-empty pages sequence — yet the
Ollama backend substitutes the empty document instead of keeping the
partial content, contradicting the claim for "every backend variant". -/
theorem C1_counterexample :
    (∃ j, repair_json textC1cx = some j ∧ validate_invoice_structure j = false ∧
       (j.getD "pagewise_line_items" .null).truthy = true) ∧
    ollama_handle_response textC1cx ⟨7, 4, 3⟩ = (get_empty_invoice_structure, ⟨7, 4, 3⟩) := by
  refine ⟨⟨.obj [("pagewise_line_items", .arr [.obj [("page_no", .str "1")]])],
    by decide, by decide, by decide⟩, by decide⟩

/-- C1, amended: when every repair strategy fails, both backends return
the empty document together with the token usage and raise no error.  On
a parse that fails structural validation: the Ollama backend always
substitutes the empty document; the Gemini backend keeps the parse
exactly when it is a dict whose `pagewise_line_items` entry is truthy,
substitutes the empty document for a dict without truthy pages, and
raises (`AttributeError` from `.get`) on a non-dict parse.  A parse that
passes validation is returned unchanged by both. -/
theorem C1_repair_failure_amended (text : String) (u : TokenUsage) :
    (repair_json text = none →
       gemini_handle_response text u = some (get_empty_invoice_structure, u) ∧
       ollama_handle_response text u = (get_empty_invoice_structure, u)) ∧
    (∀ j, repair_json text = some j → validate_invoice_structure j = false →
       ollama_handle_response text u = (get_empty_invoice_structure, u) ∧
       (∀ kvs, j = .obj kvs →
          gemini_handle_response text u =
            some ((if (j.getD "pagewise_line_items" .null).truthy then j
                   else get_empty_invoice_structure), u)) ∧
       ((∀ kvs, j ≠ .obj kvs) → gemini_handle_response text u = none)) ∧
    (∀ j, repair_json text = some j → validate_invoice_structure j = true →
       gemini_handle_response text u = some (j, u) ∧
       ollama_handle_response text u = (j, u)) := by
  refine ⟨?_, ?_, ?_⟩
  · intro hnone
    unfold gemini_handle_response ollama_handle_response
    rw [hnone]
    exact ⟨rfl, rfl⟩
  · intro j hsome hval
    unfold gemini_handle_response ollama_handle_response
    rw [hsome]
    dsimp only
    rw [hval]
    refine ⟨rfl, ?_, ?_⟩
    · intro kvs hkvs
      subst hkvs
      simp only [Bool.false_eq_true, if_false]
      split <;> rfl
    · intro hnotobj
      cases j with
      | obj kvs => exact absurd rfl (hnotobj kvs)
      | null => rfl
      | bool b => rfl
      | num q => rfl
      | str s => rfl
      | arr l => rfl
  · intro j hsome hval
    unfold gemini_handle_response ollama_handle_response
    rw [hsome]
    dsimp only
    rw [hval]
    exact ⟨rfl, rfl⟩

/-- Witness for the amended C1: unparsable garbage makes both backends
return the empty document with the token usage. -/
theorem C1_repair_failure_witness :
    gemini_handle_response "no braces at all" ⟨9, 5, 4⟩ =
      some (get_empty_invoice_structure, ⟨9, 5, 4⟩) ∧
    ollama_handle_response "no braces at all" ⟨9, 5, 4⟩ =
      (get_empty_invoice_structure, ⟨9, 5, 4⟩) :=
  (C1_repair_failure_amended "no braces at all" ⟨9, 5, 4⟩).1 (by decide)

/-! ## Claim C5 — what propagates an error to the caller -/

/-- A backend whose every invocation raises. -/
def callAlwaysFails : List ℕ → Option (Json × TokenUsage) := fun _ => none

/-- C5, counterexample: seven images at batch size three, every batch's
invocation raising — the orchestrator returns a normal (non-error) empty
result instead of propagating an error, contradicting "an error is
surfaced to the caller exactly when failure is total". -/
theorem C5_counterexample :
    (∀ chunk ∈ chunkSlices 3 ([0, 1, 2, 3, 4, 5, 6] : List ℕ),
       callAlwaysFails chunk = none) ∧
    process_with_structured_output callAlwaysFails ([0, 1, 2, 3, 4, 5, 6] : List ℕ) 3 ≠ none ∧
    process_with_structured_output callAlwaysFails ([0, 1, 2, 3, 4, 5, 6] : List ℕ) 3 =
      some (get_empty_invoice_structure, zeroUsage) := by
  refine ⟨fun chunk _ => rfl, by decide, by decide⟩

theorem foldl_chunkStep_all_fail {ι : Type} (call : List ι → Option (Json × TokenUsage)) :
    ∀ (chunks : List (List ι)) (acc : List Json × TokenUsage),
      (∀ ch ∈ chunks, call ch = none) →
      chunks.foldl (chunkStep call) acc = acc := by
  intro chunks
  induction chunks with
  | nil => intro acc _; rfl
  | cons c cs ih =>
      intro acc hall
      have hc : call c = none := hall c (List.mem_cons_self c cs)
      simp only [List.foldl_cons]
      rw [show chunkStep call acc c = acc by unfold chunkStep; rw [hc]]
      exact ih acc (fun ch hch => hall ch (List.mem_cons_of_mem c hch))

/-- C5, amended: the chunked path (more images than the batch size) never
propagates an error — when every batch fails it returns the empty
document with zero token usage as a normal result; an error reaches the
caller exactly when the image count is within one batch and that single
direct backend invocation raises. -/
theorem C5_total_failure_amended {ι : Type}
    (call : List ι → Option (Json × TokenUsage)) (imgs : List ι) (c : ℕ) :
    (imgs.length > c →
       process_with_structured_output call imgs c = some (process_in_chunks call imgs c) ∧
       ((∀ chunk ∈ chunkSlices c imgs, call chunk = none) →
          process_with_structured_output call imgs c =
            some (get_empty_invoice_structure, zeroUsage))) ∧
    (imgs.length ≤ c → process_with_structured_output call imgs c = call imgs) ∧
    (process_with_structured_output call imgs c = none ↔
       imgs.length ≤ c ∧ call imgs = none) := by
  refine ⟨?_, ?_, ?_⟩
  · intro hgt
    unfold process_with_structured_output
    rw [if_pos hgt]
    refine ⟨rfl, ?_⟩
    intro hall
    unfold process_in_chunks
    rw [foldl_chunkStep_all_fail call (chunkSlices c imgs) ([], zeroUsage) hall]
    rfl
  · intro hle
    unfold process_with_structured_output
    rw [if_neg (by omega)]
  · unfold process_with_structured_output
    by_cases hgt : imgs.length > c
    · rw [if_pos hgt]
      simp only [Option.some_ne_none, false_iff, not_and]
      intro hle
      omega
    · rw [if_neg hgt]
      constructor
      · intro hn; exact ⟨by omega, hn⟩
      · intro ⟨_, hn⟩; exact hn

/-- Witness for the amended C5: the all-fail chunked case, and the direct
path propagating the single call's exception. -/
theorem C5_total_failure_witness :
    process_with_structured_output callAlwaysFails ([0, 1, 2, 3, 4] : List ℕ) 2 =
      some (get_empty_invoice_structure, zeroUsage) ∧
    process_with_structured_output callAlwaysFails ([0] : List ℕ) 2 = none := by
  constructor
  · exact ((C5_total_failure_amended callAlwaysFails [0, 1, 2, 3, 4] 2).1 (by decide)).2
      (fun chunk _ => rfl)
  · exact ((C5_total_failure_amended callAlwaysFails [0] 2).2.2).mpr ⟨by decide, rfl⟩

/-! ## Claim C2 — chunking, per-batch invocation, aggregation -/

theorem chunkSlicesF_ample {ι : Type} :
    ∀ (f1 f2 c : ℕ) (l : List ι), l.length ≤ f1 → l.length ≤ f2 →
      chunkSlicesF f1 c l = chunkSlicesF f2 c l := by
  intro f1
  induction f1 with
  | zero =>
      intro f2 c l h1 _
      have : l = [] := List.eq_nil_of_length_eq_zero (by omega)
      subst this
      cases f2 <;> cases c <;> rfl
  | succ f ih =>
      intro f2 c l h1 h2
      cases l with
      | nil => cases f2 <;> cases c <;> rfl
      | cons x xs =>
          obtain ⟨g, rfl⟩ : ∃ g, f2 = g + 1 :=
            ⟨f2 - 1, by simp only [List.length_cons] at h2; omega⟩
          cases c with
          | zero => rfl
          | succ c' =>
              simp only [chunkSlicesF]
              congr 1
              exact ih g (c' + 1) ((x :: xs).drop (c' + 1))
                (by simp only [List.length_drop, List.length_cons] at h1 ⊢; omega)
                (by simp only [List.length_drop, List.length_cons] at h2 ⊢; omega)

theorem chunkSlices_nil {ι : Type} (c : ℕ) : chunkSlices c ([] : List ι) = [] := by
  cases c <;> rfl

theorem chunkSlices_cons_eq {ι : Type} (c : ℕ) (hc : 0 < c) (x : ι) (xs : List ι) :
    chunkSlices c (x :: xs) = (x :: xs).take c :: chunkSlices c ((x :: xs).drop c) := by
  obtain ⟨c', rfl⟩ : ∃ c', c = c' + 1 := ⟨c - 1, by omega⟩
  unfold chunkSlices
  simp only [List.length_cons, chunkSlicesF]
  congr 1
  exact chunkSlicesF_ample xs.length _ (c' + 1) _
    (by simp only [List.length_drop, List.length_cons]; omega) le_rfl

theorem chunkSlices_flatten {ι : Type} (c : ℕ) (hc : 0 < c) :
    ∀ (n : ℕ) (l : List ι), l.length ≤ n → (chunkSlices c l).flatten = l := by
  intro n
  induction n with
  | zero =>
      intro l h
      have : l = [] := List.eq_nil_of_length_eq_zero (by omega)
      subst this
      rw [chunkSlices_nil]
      rfl
  | succ n ih =>
      intro l h
      cases l with
      | nil => rw [chunkSlices_nil]; rfl
      | cons x xs =>
          rw [chunkSlices_cons_eq c hc x xs]
          simp only [List.flatten_cons]
          rw [ih ((x :: xs).drop c)
            (by simp only [List.length_drop, List.length_cons] at h ⊢; omega)]
          exact List.take_append_drop c (x :: xs)

theorem chunkSlices_lengths {ι : Type} (c : ℕ) (hc : 0 < c) :
    ∀ (n : ℕ) (l : List ι), l.length ≤ n → l ≠ [] →
      (chunkSlices c l).map List.length =
        List.replicate ((l.length - 1) / c) c ++ [l.length - ((l.length - 1) / c) * c] := by
  intro n
  induction n with
  | zero =>
      intro l h hne
      exact absurd (List.eq_nil_of_length_eq_zero (by omega)) hne
  | succ n ih =>
      intro l h hne
      cases l with
      | nil => exact absurd rfl hne
      | cons x xs =>
          rw [chunkSlices_cons_eq c hc x xs]
          by_cases hsm : (x :: xs).length ≤ c
          · have hdrop : (x :: xs).drop c = [] := List.drop_eq_nil_of_le hsm
            have htake : (x :: xs).take c = x :: xs := List.take_of_length_le hsm
            have hz : ((x :: xs).length - 1) / c = 0 :=
              Nat.div_eq_of_lt (by simp only [List.length_cons] at hsm ⊢; omega)
            rw [hdrop, htake, chunkSlices_nil, hz]
            simp
          · push_neg at hsm
            have hdl : ((x :: xs).drop c).length = (x :: xs).length - c := by
              simp only [List.length_drop]
            have hdne : (x :: xs).drop c ≠ [] := by
              intro hd
              rw [hd] at hdl
              simp only [List.length_nil, List.length_cons] at hdl
              simp only [List.length_cons] at hsm
              omega
            rw [List.map_cons, ih ((x :: xs).drop c)
              (by simp only [List.length_drop, List.length_cons] at h ⊢; omega) hdne]
            rw [List.length_take, hdl]
            have hmin : min c (x :: xs).length = c := min_eq_left (le_of_lt hsm)
            rw [hmin]
            have h1c : c ≤ (x :: xs).length - 1 := by
              simp only [List.length_cons] at hsm ⊢
              omega
            have hdiv : ((x :: xs).length - 1) / c = ((x :: xs).length - c - 1) / c + 1 := by
              rw [show (x :: xs).length - c - 1 = (x :: xs).length - 1 - c by omega]
              exact Nat.div_eq_sub_div hc h1c
            rw [hdiv, List.replicate_succ, List.cons_append]
            have hm : ((x :: xs).length - c - 1) / c * c ≤ (x :: xs).length - c - 1 :=
              Nat.div_mul_le_self _ _
            have hlast : (x :: xs).length - c - ((x :: xs).length - c - 1) / c * c =
                (x :: xs).length - (((x :: xs).length - c - 1) / c + 1) * c := by
              rw [Nat.succ_mul]
              generalize ((x :: xs).length - c - 1) / c * c = m at hm ⊢
              simp only [List.length_cons] at hsm ⊢
              omega
            rw [hlast]

/-- The pages and usage one chunk contributes to the running totals. -/
def chunkContribution {ι : Type} (call : List ι → Option (Json × TokenUsage))
    (ch : List ι) : List Json × TokenUsage :=
  match call ch with
  | none => ([], zeroUsage)
  | some (result, tu) =>
      match result with
      | .obj _ =>
          (match pyIterElems (result.getD "pagewise_line_items" (.arr [])) with
           | some elems => (elems, tu)
           | none => ([], zeroUsage))
      | _ => ([], zeroUsage)

theorem addUsage_zero (a : TokenUsage) : addUsage a zeroUsage = a := by
  cases a
  simp [addUsage, zeroUsage]

theorem zero_addUsage (a : TokenUsage) : addUsage zeroUsage a = a := by
  cases a
  simp [addUsage, zeroUsage]

theorem addUsage_assoc (a b c : TokenUsage) :
    addUsage (addUsage a b) c = addUsage a (addUsage b c) := by
  simp [addUsage]
  omega

theorem chunkStep_eq {ι : Type} (call : List ι → Option (Json × TokenUsage))
    (acc : List Json × TokenUsage) (ch : List ι) :
    chunkStep call acc ch =
      (acc.1 ++ (chunkContribution call ch).1,
       addUsage acc.2 (chunkContribution call ch).2) := by
  obtain ⟨a1, a2⟩ := acc
  unfold chunkStep chunkContribution
  cases call ch with
  | none => simp [addUsage_zero]
  | some p =>
      obtain ⟨result, tu⟩ := p
      cases result with
      | obj kvs =>
          dsimp only
          cases pyIterElems ((Json.obj kvs).getD "pagewise_line_items" (.arr [])) with
          | none => simp [addUsage_zero]
          | some elems => rfl
      | null => simp [addUsage_zero]
      | bool b => simp [addUsage_zero]
      | num q => simp [addUsage_zero]
      | str s => simp [addUsage_zero]
      | arr l => simp [addUsage_zero]

theorem foldl_chunkStep_eq {ι : Type} (call : List ι → Option (Json × TokenUsage)) :
    ∀ (chunks : List (List ι)) (acc : List Json × TokenUsage),
      chunks.foldl (chunkStep call) acc =
        (acc.1 ++ (chunks.map (fun ch => (chunkContribution call ch).1)).flatten,
         addUsage acc.2 (sumUsage (chunks.map (fun ch => (chunkContribution call ch).2)))) := by
  intro chunks
  induction chunks with
  | nil =>
      intro acc
      simp [sumUsage, addUsage_zero]
  | cons ch chs ih =>
      intro acc
      simp only [List.foldl_cons, List.map_cons, List.flatten_cons]
      rw [chunkStep_eq, ih]
      simp only [sumUsage, List.foldr_cons]
      rw [List.append_assoc, ← addUsage_assoc]

/-- A successful backend result of the documented shape: a dict whose
`pagewise_line_items` entry, if present, is a list. -/
def resultShapeOk {ι : Type} (call : List ι → Option (Json × TokenUsage)) (ch : List ι) : Prop :=
  ∀ j tu, call ch = some (j, tu) → ∃ kvs, j = Json.obj kvs ∧
    (kvs.lookup "pagewise_line_items" = none ∨
     ∃ l, kvs.lookup "pagewise_line_items" = some (.arr l))

theorem sumUsage_contrib {ι : Type} (call : List ι → Option (Json × TokenUsage)) :
    ∀ chunks : List (List ι), (∀ ch ∈ chunks, resultShapeOk call ch) →
      sumUsage (chunks.map (fun ch => (chunkContribution call ch).2)) =
      sumUsage (chunks.filterMap (fun ch => (call ch).map Prod.snd)) := by
  intro chunks
  induction chunks with
  | nil => intro _; rfl
  | cons ch chs ih =>
      intro hall
      have hch := hall ch (List.mem_cons_self ch chs)
      have htl := ih (fun c hc => hall c (List.mem_cons_of_mem ch hc))
      simp only [List.map_cons, List.filterMap_cons]
      cases hc : call ch with
      | none =>
          rw [show (chunkContribution call ch).2 = zeroUsage by
            unfold chunkContribution; rw [hc]]
          rw [show sumUsage (zeroUsage :: chs.map (fun ch => (chunkContribution call ch).2)) =
            addUsage zeroUsage (sumUsage (chs.map (fun ch => (chunkContribution call ch).2)))
            from rfl]
          rw [zero_addUsage, htl]
          rfl
      | some p =>
          obtain ⟨j, tu⟩ := p
          obtain ⟨kvs, rfl, hlk⟩ := hch j tu hc
          have hcontrib : (chunkContribution call ch).2 = tu := by
            unfold chunkContribution
            rw [hc]
            rcases hlk with hn | ⟨l, hs⟩
            · simp only [Json.getD, Json.get?, hn, Option.getD_none]
              rfl
            · simp only [Json.getD, Json.get?, hs, Option.getD_some]
              rfl
          rw [hcontrib]
          rw [show sumUsage (tu :: chs.map (fun ch => (chunkContribution call ch).2)) =
            addUsage tu (sumUsage (chs.map (fun ch => (chunkContribution call ch).2)))
            from rfl]
          rw [htl]
          rfl

/-- C2: with `0 < c < n`, the orchestrator partitions the `n` images into
consecutive batches of size `c` whose concatenation is the input, with a
final batch of size `n - ((n-1)/c)·c ∈ (0, c]`; the backend runs once per
batch in order; a batch whose invocation raises contributes no pages and
no tokens while the others still run; the combined pages are the
concatenation of the per-batch contributions and the combined usage is
the componentwise sum over exactly the batches that succeeded. -/
theorem C2_batch_orchestration {ι : Type} (call : List ι → Option (Json × TokenUsage))
    (imgs : List ι) (c : ℕ) (hc : 0 < c) (hn : c < imgs.length)
    (hshape : ∀ ch ∈ chunkSlices c imgs, resultShapeOk call ch) :
    (chunkSlices c imgs).flatten = imgs ∧
    (chunkSlices c imgs).map List.length =
      List.replicate ((imgs.length - 1) / c) c ++
        [imgs.length - ((imgs.length - 1) / c) * c] ∧
    0 < imgs.length - ((imgs.length - 1) / c) * c ∧
    imgs.length - ((imgs.length - 1) / c) * c ≤ c ∧
    process_in_chunks call imgs c =
      (Json.obj [("pagewise_line_items",
         .arr ((chunkSlices c imgs).map (fun ch => (chunkContribution call ch).1)).flatten)],
       sumUsage ((chunkSlices c imgs).filterMap (fun ch => (call ch).map Prod.snd))) ∧
    (∀ ch ∈ chunkSlices c imgs, call ch = none →
       chunkContribution call ch = ([], zeroUsage)) := by
  have hne : imgs ≠ [] := by
    intro h
    rw [h] at hn
    simp at hn
  refine ⟨chunkSlices_flatten c hc imgs.length imgs le_rfl,
    chunkSlices_lengths c hc imgs.length imgs le_rfl hne, ?_, ?_, ?_, ?_⟩
  · have hmod := Nat.div_add_mod (imgs.length - 1) c
    rw [Nat.mul_comm ((imgs.length - 1) / c) c]
    generalize c * ((imgs.length - 1) / c) = m at hmod ⊢
    omega
  · have hmod := Nat.div_add_mod (imgs.length - 1) c
    have hlt := Nat.mod_lt (imgs.length - 1) hc
    rw [Nat.mul_comm ((imgs.length - 1) / c) c]
    generalize c * ((imgs.length - 1) / c) = m at hmod ⊢
    omega
  · unfold process_in_chunks
    rw [foldl_chunkStep_eq]
    simp only [List.nil_append]
    rw [zero_addUsage, sumUsage_contrib call (chunkSlices c imgs) hshape]
  · intro ch _ hnone
    unfold chunkContribution
    rw [hnone]

/-- Seven page images for the C2 witness. -/
def imgsC2w : List ℕ := [0, 1, 2, 3, 4, 5, 6]

/-- A backend that fails exactly on the batch starting at image 3. -/
def callC2w : List ℕ → Option (Json × TokenUsage) := fun ch =>
  if ch.headD 0 == 3 then none
  else some (.obj [("pagewise_line_items",
    .arr [.obj [("page_no", .str "p"), ("page_type", .str "Pharmacy"),
                ("bill_items", .arr [])]])], ⟨10, 6, 4⟩)

/-- Witness for C2: seven images at batch size three. -/
theorem C2_batch_orchestration_witness :
    (chunkSlices 3 imgsC2w).flatten = imgsC2w ∧
    (chunkSlices 3 imgsC2w).map List.length =
      List.replicate ((imgsC2w.length - 1) / 3) 3 ++
        [imgsC2w.length - ((imgsC2w.length - 1) / 3) * 3] := by
  have hshape : ∀ ch ∈ chunkSlices 3 imgsC2w, resultShapeOk callC2w ch := by
    intro ch _ j tu h
    unfold callC2w at h
    split at h
    · exact absurd h (by simp)
    · have hj : Json.obj [("pagewise_line_items",
          .arr [.obj [("page_no", .str "p"), ("page_type", .str "Pharmacy"),
                      ("bill_items", .arr [])]])] = j := by
        have := Option.some.inj h
        exact congrArg Prod.fst this
      subst hj
      exact ⟨_, rfl, Or.inr ⟨_, rfl⟩⟩
  have h := C2_batch_orchestration callC2w imgsC2w 3 (by decide) (by decide) hshape
  exact ⟨h.1, h.2.1⟩

/-! ## Validation output invariants (claims C4, C8, C10) -/

theorem mapFix {α : Type} (f : α → α) :
    ∀ l : List α, (∀ c ∈ l, f c = c) → l.map f = l := by
  intro l
  induction l with
  | nil => intro _; rfl
  | cons x xs ih =>
      intro h
      rw [List.map_cons, h x (List.mem_cons_self x xs),
        ih (fun c hc => h c (List.mem_cons_of_mem x hc))]

/-- Characters surviving the two cleaning passes: printable and neither
newline nor tab, or a plain space. -/
def goodChar (c : Char) : Bool :=
  (pyIsPrintable c && !(c == '\n') && !(c == '\t')) || c == ' '

/-- The two mapping passes of `clean_item_name`. -/
def cleanPass (s : String) : List Char :=
  (s.data.map (fun c => if pyIsPrintable c || c = '\n' || c = '\t' then c else ' ')).map
    (fun c => if c = '\n' then ' ' else if c = '\t' then ' ' else c)

theorem cleanNameStr_eq (s : String) :
    cleanNameStr s =
      pyStrip (joinSep " " ((pySplitGo pyIsWs (cleanPass s) []).map
        (fun w => (⟨w⟩ : String)))) := rfl

theorem cleanPass_good (s : String) : ∀ c ∈ cleanPass s, goodChar c = true := by
  intro c hc
  unfold cleanPass at hc
  obtain ⟨c1, hc1, rfl⟩ := List.mem_map.mp hc
  obtain ⟨c0, hc0, rfl⟩ := List.mem_map.mp hc1
  by_cases hnl : c0 = '\n' <;> by_cases htb : c0 = '\t' <;>
    by_cases hpr : pyIsPrintable c0 <;>
    simp [hnl, htb, hpr, goodChar]

theorem splitGo_spec (p : Char → Bool) :
    ∀ (l cur : List Char), (∀ c ∈ cur, p c = false) →
      ∀ w ∈ pySplitGo p l cur, w ≠ [] ∧ ∀ c ∈ w, p c = false ∧ (c ∈ l ∨ c ∈ cur) := by
  intro l
  induction l with
  | nil =>
      intro cur hcur w hw
      unfold pySplitGo at hw
      by_cases hc : cur.isEmpty
      · rw [if_pos hc] at hw
        exact absurd hw (List.not_mem_nil w)
      · rw [if_neg hc] at hw
        rcases List.mem_singleton.mp hw with rfl
        refine ⟨by simpa [List.isEmpty_iff] using hc, ?_⟩
        intro c hcw
        rw [List.mem_reverse] at hcw
        exact ⟨hcur c hcw, Or.inr hcw⟩
  | cons x xs ih =>
      intro cur hcur w hw
      unfold pySplitGo at hw
      by_cases hp : p x
      · rw [if_pos hp] at hw
        by_cases hc : cur.isEmpty
        · rw [if_pos hc] at hw
          obtain ⟨hne, hmem⟩ := ih [] (by simp) w hw
          exact ⟨hne, fun c hcw => ⟨(hmem c hcw).1, by
            rcases (hmem c hcw).2 with h | h
            · exact Or.inl (List.mem_cons_of_mem x h)
            · exact absurd h (List.not_mem_nil c)⟩⟩
        · rw [if_neg hc] at hw
          rcases List.mem_cons.mp hw with rfl | hw'
          · refine ⟨by simpa [List.isEmpty_iff] using hc, ?_⟩
            intro c hcw
            rw [List.mem_reverse] at hcw
            exact ⟨hcur c hcw, Or.inr hcw⟩
          · obtain ⟨hne, hmem⟩ := ih [] (by simp) w hw'
            exact ⟨hne, fun c hcw => ⟨(hmem c hcw).1, by
              rcases (hmem c hcw).2 with h | h
              · exact Or.inl (List.mem_cons_of_mem x h)
              · exact absurd h (List.not_mem_nil c)⟩⟩
      · rw [if_neg hp] at hw
        obtain ⟨hne, hmem⟩ := ih (x :: cur)
          (by
            intro c hc
            rcases List.mem_cons.mp hc with rfl | hc'
            · exact Bool.eq_false_iff.mpr hp
            · exact hcur c hc') w hw
        refine ⟨hne, fun c hcw => ⟨(hmem c hcw).1, ?_⟩⟩
        rcases (hmem c hcw).2 with h | h
        · exact Or.inl (List.mem_cons_of_mem x h)
        · rcases List.mem_cons.mp h with rfl | h'
          · exact Or.inl (List.mem_cons_self c xs)
          · exact Or.inr h'

/-- The character list of a space-joined word list. -/
def charsJoin : List (List Char) → List Char
  | [] => []
  | [w] => w
  | w :: w' :: ws => w ++ ' ' :: charsJoin (w' :: ws)

theorem joinSep_data :
    ∀ ws : List (List Char),
      (joinSep " " (ws.map (fun w => (⟨w⟩ : String)))).data = charsJoin ws := by
  intro ws
  induction ws with
  | nil => rfl
  | cons w ws ih =>
      cases ws with
      | nil => rfl
      | cons w' ws' =>
          show (String.mk w ++ " " ++ joinSep " " _).data = w ++ ' ' :: charsJoin (w' :: ws')
          rw [String.data_append, String.data_append]
          rw [show ((fun w => (⟨w⟩ : String)) w' :: List.map (fun w => (⟨w⟩ : String)) ws') =
            List.map (fun w => (⟨w⟩ : String)) (w' :: ws') from rfl, ih]
          rw [show (" " : String).data = [' '] by decide, List.append_assoc]
          rfl

theorem charsJoin_mem (c : Char) :
    ∀ ws : List (List Char), c ∈ charsJoin ws → c = ' ' ∨ ∃ w ∈ ws, c ∈ w := by
  intro ws
  induction ws with
  | nil => intro h; exact absurd h (List.not_mem_nil c)
  | cons w ws ih =>
      cases ws with
      | nil =>
          intro h
          exact Or.inr ⟨w, List.mem_cons_self w [], h⟩
      | cons w' ws' =>
          intro h
          rw [show charsJoin (w :: w' :: ws') = w ++ ' ' :: charsJoin (w' :: ws') from rfl,
            List.mem_append] at h
          rcases h with h | h
          · exact Or.inr ⟨w, List.mem_cons_self w _, h⟩
          · rcases List.mem_cons.mp h with rfl | h'
            · exact Or.inl rfl
            · rcases ih h' with h'' | ⟨w0, hw0, hc0⟩
              · exact Or.inl h''
              · exact Or.inr ⟨w0, List.mem_cons_of_mem w hw0, hc0⟩

theorem pyStrip_mem (c : Char) (l : List Char) : c ∈ (pyStrip ⟨l⟩).data → c ∈ l := by
  intro h
  unfold pyStrip at h
  simp only at h
  rw [List.mem_reverse] at h
  have h1 := (List.dropWhile_sublist pyIsWs).mem h
  rw [List.mem_reverse] at h1
  exact (List.dropWhile_sublist pyIsWs).mem h1

theorem pyStrip_no_ws (l : List Char)
    (hh : ∀ hd, l.head? = some hd → pyIsWs hd = false)
    (hl : ∀ lt, l.getLast? = some lt → pyIsWs lt = false) :
    pyStrip ⟨l⟩ = ⟨l⟩ := by
  unfold pyStrip
  cases l with
  | nil => rfl
  | cons x xs =>
      have hx : pyIsWs x = false := hh x rfl
      rw [List.dropWhile_cons_of_neg (by simp [hx])]
      have : (x :: xs).reverse.dropWhile pyIsWs = (x :: xs).reverse := by
        cases hrev : (x :: xs).reverse with
        | nil => rfl
        | cons y ys =>
            have hy : (x :: xs).getLast? = some y := by
              rw [List.getLast?_eq_head?_reverse, hrev]
              rfl
            rw [List.dropWhile_cons_of_neg (by simp [hl y hy])]
      rw [this, List.reverse_reverse]

theorem splitGo_skip (p : Char → Bool) :
    ∀ (w rest cur : List Char), (∀ c ∈ w, p c = false) →
      pySplitGo p (w ++ rest) cur = pySplitGo p rest (w.reverse ++ cur) := by
  intro w
  induction w with
  | nil => intro rest cur _; rfl
  | cons c w' ih =>
      intro rest cur hw
      have hc : p c = false := hw c (List.mem_cons_self c w')
      have h1 : pySplitGo p ((c :: w') ++ rest) cur = pySplitGo p (w' ++ rest) (c :: cur) := by
        show pySplitGo p (c :: (w' ++ rest)) cur = _
        simp only [pySplitGo]
        rw [if_neg (by simp [hc])]
      rw [h1, ih rest (c :: cur) (fun d hd => hw d (List.mem_cons_of_mem c hd))]
      congr 1
      simp

theorem split_join (p : Char → Bool) (hsp : p ' ' = true) :
    ∀ ws : List (List Char), (∀ w ∈ ws, w ≠ [] ∧ ∀ c ∈ w, p c = false) →
      pySplitGo p (charsJoin ws) [] = ws := by
  intro ws
  induction ws with
  | nil => intro _; rfl
  | cons w ws ih =>
      intro hws
      obtain ⟨hne, hniw⟩ := hws w (List.mem_cons_self w ws)
      cases ws with
      | nil =>
          show pySplitGo p w [] = [w]
          rw [show w = w ++ [] by simp, splitGo_skip p w [] [] (by simpa using hniw)]
          unfold pySplitGo
          rw [if_neg (by simp [hne])]
          simp
      | cons w' ws' =>
          show pySplitGo p (w ++ ' ' :: charsJoin (w' :: ws')) [] = _
          rw [splitGo_skip p w _ [] hniw]
          unfold pySplitGo
          rw [if_pos hsp, if_neg (by simp [hne])]
          rw [ih (fun v hv => hws v (List.mem_cons_of_mem w hv))]
          simp

theorem charsJoin_head (w : List Char) (ws : List (List Char)) (hne : w ≠ []) :
    (charsJoin (w :: ws)).head? = w.head? := by
  cases ws with
  | nil => rfl
  | cons w' ws' =>
      show (w ++ ' ' :: charsJoin (w' :: ws')).head? = w.head?
      cases w with
      | nil => exact absurd rfl hne
      | cons c cs => rfl

theorem head?_mem {α : Type} (l : List α) (a : α) (h : l.head? = some a) : a ∈ l := by
  cases l with
  | nil => simp at h
  | cons x xs =>
      rw [show (x :: xs).head? = some x from rfl] at h
      rw [← Option.some.inj h]
      exact List.mem_cons_self x xs

theorem charsJoin_ne_nil (w : List Char) (ws : List (List Char)) (hne : w ≠ []) :
    charsJoin (w :: ws) ≠ [] := by
  intro h
  have := charsJoin_head w ws hne
  rw [h] at this
  cases w with
  | nil => exact hne rfl
  | cons x xs => simp at this

theorem charsJoin_last_mem :
    ∀ ws : List (List Char), (∀ v ∈ ws, v ≠ []) →
      ∀ lt, (charsJoin ws).getLast? = some lt → ∃ v ∈ ws, lt ∈ v := by
  intro ws
  induction ws with
  | nil => intro _ lt h; simp [charsJoin] at h
  | cons w ws' ih =>
      intro hall lt h
      cases ws' with
      | nil =>
          refine ⟨w, List.mem_cons_self w [], ?_⟩
          have hw : charsJoin [w] = w := rfl
          rw [hw] at h
          cases hwl : w with
          | nil => rw [hwl] at h; simp at h
          | cons x xs =>
              rw [hwl] at h
              rw [List.getLast?_eq_getLast (x :: xs) (by simp)] at h
              rw [← Option.some.inj h]
              exact List.getLast_mem (by simp)
      | cons w' ws'' =>
          have hcw : charsJoin (w :: w' :: ws'') = w ++ ' ' :: charsJoin (w' :: ws'') := rfl
          rw [hcw] at h
          have hne' : (' ' :: charsJoin (w' :: ws'')) ≠ [] := by simp
          rw [List.getLast?_append_of_ne_nil w hne'] at h
          have hw' : w' ≠ [] := hall w' (List.mem_cons_of_mem w (List.mem_cons_self w' ws''))
          have hcne : charsJoin (w' :: ws'') ≠ [] := charsJoin_ne_nil w' ws'' hw'
          have hsp : (' ' :: charsJoin (w' :: ws'')) = [' '] ++ charsJoin (w' :: ws'') := rfl
          rw [hsp, List.getLast?_append_of_ne_nil [' '] hcne] at h
          obtain ⟨v, hv, hlt⟩ := ih (fun v hv => hall v (List.mem_cons_of_mem w hv)) lt h
          exact ⟨v, List.mem_cons_of_mem w hv, hlt⟩

theorem join_strip_id (ws : List (List Char))
    (hws : ∀ w ∈ ws, w ≠ [] ∧ ∀ c ∈ w, pyIsWs c = false) :
    pyStrip ⟨charsJoin ws⟩ = ⟨charsJoin ws⟩ := by
  apply pyStrip_no_ws
  · intro hd hhd
    cases ws with
    | nil => simp [charsJoin] at hhd
    | cons w ws' =>
        obtain ⟨hne, hniw⟩ := hws w (List.mem_cons_self w ws')
        rw [charsJoin_head w ws' hne] at hhd
        exact hniw hd (head?_mem w hd hhd)
  · intro lt hlt
    obtain ⟨v, hv, hltv⟩ :=
      charsJoin_last_mem ws (fun v hv => (hws v hv).1) lt hlt
    exact (hws v hv).2 lt hltv

/-- `clean_item_name` on a string: the cleaned words joined by single
spaces, with the final strip a no-op. -/
theorem cleanNameStr_join (s : String) :
    cleanNameStr s =
      ⟨charsJoin (pySplitGo pyIsWs (cleanPass s) [])⟩ := by
  rw [cleanNameStr_eq]
  have hws : ∀ w ∈ pySplitGo pyIsWs (cleanPass s) [], w ≠ [] ∧ ∀ c ∈ w, pyIsWs c = false := by
    intro w hw
    obtain ⟨hne, hmem⟩ := splitGo_spec pyIsWs (cleanPass s) [] (by simp) w hw
    exact ⟨hne, fun c hc => (hmem c hc).1⟩
  rw [show joinSep " " ((pySplitGo pyIsWs (cleanPass s) []).map (fun w => (⟨w⟩ : String))) =
    ⟨charsJoin (pySplitGo pyIsWs (cleanPass s) [])⟩ by
      cases hj : joinSep " " ((pySplitGo pyIsWs (cleanPass s) []).map (fun w => (⟨w⟩ : String))) with
      | mk d =>
          have := joinSep_data (pySplitGo pyIsWs (cleanPass s) [])
          rw [hj] at this
          rw [← this]]
  exact join_strip_id _ hws

theorem cleanNameStr_chars (s : String) (c : Char) (hc : c ∈ (cleanNameStr s).data) :
    goodChar c = true := by
  rw [cleanNameStr_join] at hc
  rcases charsJoin_mem c _ hc with rfl | ⟨w, hw, hcw⟩
  · decide
  · obtain ⟨_, hmem⟩ := splitGo_spec pyIsWs (cleanPass s) [] (by simp) w hw
    rcases (hmem c hcw).2 with h | h
    · exact cleanPass_good s c h
    · exact absurd h (List.not_mem_nil c)

theorem goodChar_not_ctrl (c : Char) (h : goodChar c = true) : isCtrlChar c = false := by
  unfold goodChar pyIsPrintable at h
  unfold isCtrlChar
  rcases Bool.or_eq_true _ _ |>.mp h with h1 | h2
  · simp only [Bool.and_eq_true, Bool.not_eq_true'] at h1
    obtain ⟨⟨hp, _⟩, _⟩ := h1
    simp only [Bool.or_eq_true, Bool.and_eq_true, decide_eq_true_eq,
      Bool.or_eq_false_iff, Bool.and_eq_false_iff, decide_eq_false_iff_not, not_lt, not_le] at hp ⊢
    omega
  · have : c = ' ' := by simpa using h2
    subst this
    decide

theorem cleanNameStr_noCtrl (s : String) : noCtrl (cleanNameStr s) = true := by
  unfold noCtrl
  rw [List.all_eq_true]
  intro c hc
  rw [Bool.not_eq_true']
  exact goodChar_not_ctrl c (cleanNameStr_chars s c hc)

theorem cleanNameStr_idem (s : String) :
    cleanNameStr (cleanNameStr s) = cleanNameStr s := by
  have hgood := cleanNameStr_chars s
  have hpass : cleanPass (cleanNameStr s) = (cleanNameStr s).data := by
    unfold cleanPass
    rw [mapFix, mapFix]
    · intro c hc
      have hg := hgood c hc
      unfold goodChar at hg
      rcases Bool.or_eq_true _ _ |>.mp hg with h1 | h2
      · simp only [Bool.and_eq_true, Bool.not_eq_true', beq_eq_false_iff_ne, ne_eq] at h1
        rw [if_pos (by simp [h1.1.1])]
      · have : c = ' ' := by simpa using h2
        subst this
        rw [if_pos (by decide)]
    · intro c hc
      have hc' : c ∈ (cleanNameStr s).data := by
        obtain ⟨c0, hc0, rfl⟩ := List.mem_map.mp hc
        have hg := hgood c0 hc0
        unfold goodChar at hg
        rcases Bool.or_eq_true _ _ |>.mp hg with h1 | h2
        · simp only [Bool.and_eq_true, Bool.not_eq_true', beq_eq_false_iff_ne, ne_eq] at h1
          rw [if_pos (by simp [h1.1.1])]
          exact hc0
        · have : c0 = ' ' := by simpa using h2
          subst this
          rw [if_pos (by decide)]
          exact hc0
      have hg := hgood c hc'
      unfold goodChar at hg
      rcases Bool.or_eq_true _ _ |>.mp hg with h1 | h2
      · simp only [Bool.and_eq_true, Bool.not_eq_true', beq_eq_false_iff_ne, ne_eq] at h1
        rw [if_neg h1.1.2, if_neg h1.2]
      · have : c = ' ' := by simpa using h2
        subst this
        rfl
  have hws := splitGo_spec pyIsWs (cleanPass s) [] (by simp)
  have hsplit : pySplitGo pyIsWs (cleanNameStr s).data [] =
      pySplitGo pyIsWs (cleanPass s) [] := by
    conv_lhs => rw [cleanNameStr_join]
    exact split_join pyIsWs rfl _ (fun w hw =>
      ⟨(hws w hw).1, fun c hc => ((hws w hw).2 c hc).1⟩)
  rw [show cleanNameStr (cleanNameStr s) =
    pyStrip (joinSep " " ((pySplitGo pyIsWs (cleanPass (cleanNameStr s)) []).map
      (fun w => (⟨w⟩ : String)))) from rfl]
  rw [hpass, hsplit]
  rw [← cleanNameStr_eq]

theorem noCtrl_append (a b : String) :
    noCtrl (a ++ b) = (noCtrl a && noCtrl b) := by
  unfold noCtrl
  rw [String.data_append, List.all_append]

theorem noCtrl_joinSep (sep : String) (hsep : noCtrl sep = true) :
    ∀ parts : List String, (∀ s ∈ parts, noCtrl s = true) →
      noCtrl (joinSep sep parts) = true := by
  intro parts
  induction parts with
  | nil => intro _; rfl
  | cons x xs ih =>
      intro hall
      cases xs with
      | nil => exact hall x (List.mem_cons_self x [])
      | cons y ys =>
          show noCtrl (x ++ sep ++ joinSep sep (y :: ys)) = true
          rw [noCtrl_append, noCtrl_append]
          rw [hall x (List.mem_cons_self x _), hsep,
            ih (fun s hs => hall s (List.mem_cons_of_mem x hs))]
          rfl

theorem digitChar10_not_ctrl (k : ℕ) : isCtrlChar (digitChar10 k) = false := by
  unfold digitChar10
  have h : k % 10 < 10 := Nat.mod_lt _ (by norm_num)
  set m := k % 10 with hm
  interval_cases m <;> decide

theorem digitChar16_not_ctrl (k : ℕ) : isCtrlChar (digitChar16 k) = false := by
  unfold digitChar16
  have h : k % 16 < 16 := Nat.mod_lt _ (by norm_num)
  set m := k % 16 with hm
  interval_cases m <;> decide

theorem natDigitsF_not_ctrl :
    ∀ (f n : ℕ) (c : Char), c ∈ natDigitsF f n → isCtrlChar c = false := by
  intro f
  induction f with
  | zero =>
      intro n c hc
      rcases List.mem_singleton.mp hc with rfl
      exact digitChar10_not_ctrl n
  | succ f ih =>
      intro n c hc
      unfold natDigitsF at hc
      by_cases h : n < 10
      · rw [if_pos h] at hc
        rcases List.mem_singleton.mp hc with rfl
        exact digitChar10_not_ctrl n
      · rw [if_neg h, List.mem_append] at hc
        rcases hc with hc | hc
        · exact ih (n / 10) c hc
        · rcases List.mem_singleton.mp hc with rfl
          exact digitChar10_not_ctrl (n % 10)

theorem noCtrl_natDigits (n : ℕ) : noCtrl ⟨natDigits n⟩ = true := by
  unfold noCtrl natDigits
  rw [List.all_eq_true]
  intro c hc
  rw [Bool.not_eq_true']
  exact natDigitsF_not_ctrl n n c hc

theorem noCtrl_intRepr (i : ℤ) : noCtrl (intRepr i) = true := by
  unfold intRepr
  by_cases h : i < 0
  · rw [if_pos h, noCtrl_append, noCtrl_natDigits]
    rfl
  · rw [if_neg h]
    exact noCtrl_natDigits i.natAbs

theorem noCtrl_numRepr (q : ℚ) : noCtrl (numRepr q) = true := by
  unfold numRepr
  by_cases h : q.den = 1
  · rw [if_pos h, noCtrl_append, noCtrl_intRepr]
    rfl
  · rw [if_neg h, noCtrl_append, noCtrl_append, noCtrl_intRepr, noCtrl_natDigits]
    rfl

theorem noCtrl_reprEscChar (c : Char) : noCtrl (reprEscChar c) = true := by
  unfold reprEscChar
  by_cases h1 : c = '\\'
  · rw [if_pos h1]; rfl
  rw [if_neg h1]
  by_cases h2 : c = '\''
  · rw [if_pos h2]; rfl
  rw [if_neg h2]
  by_cases h3 : c = '\n'
  · rw [if_pos h3]; rfl
  rw [if_neg h3]
  by_cases h4 : c = '\r'
  · rw [if_pos h4]; rfl
  rw [if_neg h4]
  by_cases h5 : c = '\t'
  · rw [if_pos h5]; rfl
  rw [if_neg h5]
  by_cases h6 : pyIsPrintable c = true
  · rw [if_pos h6]
    unfold noCtrl
    simp only [List.all_cons, List.all_nil, Bool.and_true, Bool.not_eq_true']
    unfold pyIsPrintable at h6
    unfold isCtrlChar
    simp only [Bool.not_eq_true', Bool.or_eq_false_iff, Bool.and_eq_false_iff,
      decide_eq_false_iff_not, not_lt, not_le] at h6 ⊢
    omega
  · rw [if_neg h6]
    unfold noCtrl
    simp only [String.data_append, List.all_append, Bool.and_eq_true]
    refine ⟨by decide, ?_⟩
    simp only [List.all_cons, List.all_nil, Bool.and_true, Bool.not_eq_true']
    rw [Bool.and_eq_true]
    constructor <;> rw [Bool.not_eq_true'] <;> exact digitChar16_not_ctrl _

theorem noCtrl_foldl_append :
    ∀ (l : List String) (acc : String), noCtrl acc = true →
      (∀ x ∈ l, noCtrl x = true) → noCtrl (l.foldl (· ++ ·) acc) = true := by
  intro l
  induction l with
  | nil => intro acc h _; exact h
  | cons x xs ih =>
      intro acc h hall
      rw [List.foldl_cons]
      exact ih (acc ++ x)
        (by rw [noCtrl_append, h, hall x (List.mem_cons_self x xs)]; rfl)
        (fun y hy => hall y (List.mem_cons_of_mem x hy))

theorem noCtrl_pyReprStr (s : String) : noCtrl (pyReprStr s) = true := by
  unfold pyReprStr
  rw [noCtrl_append, noCtrl_append]
  rw [show noCtrl "'" = true from rfl, Bool.and_true, Bool.true_and]
  unfold String.join
  apply noCtrl_foldl_append
  · rfl
  · intro x hx
    obtain ⟨c, _, rfl⟩ := List.mem_map.mp hx
    exact noCtrl_reprEscChar c

theorem mem_pyReprList :
    ∀ (l : List Json) (s : String), s ∈ pyReprList l → ∃ j ∈ l, s = pyReprJ j := by
  intro l
  induction l with
  | nil => intro s hs; unfold pyReprList at hs; exact absurd hs (List.not_mem_nil s)
  | cons j js ih =>
      intro s hs
      unfold pyReprList at hs
      rcases List.mem_cons.mp hs with rfl | hs'
      · exact ⟨j, List.mem_cons_self j js, rfl⟩
      · obtain ⟨j', hj', rfl⟩ := ih s hs'
        exact ⟨j', List.mem_cons_of_mem j hj', rfl⟩

theorem mem_pyReprKVs :
    ∀ (kvs : List (String × Json)) (s : String), s ∈ pyReprKVs kvs →
      ∃ kv ∈ kvs, s = pyReprStr kv.1 ++ ": " ++ pyReprJ kv.2 := by
  intro kvs
  induction kvs with
  | nil => intro s hs; unfold pyReprKVs at hs; exact absurd hs (List.not_mem_nil s)
  | cons kv kvs ih =>
      intro s hs
      obtain ⟨k, v⟩ := kv
      unfold pyReprKVs at hs
      rcases List.mem_cons.mp hs with rfl | hs'
      · exact ⟨(k, v), List.mem_cons_self (k, v) kvs, rfl⟩
      · obtain ⟨kv', hkv', rfl⟩ := ih s hs'
        exact ⟨kv', List.mem_cons_of_mem (k, v) hkv', rfl⟩

theorem noCtrl_pyRender :
    ∀ (n : ℕ) (j : Json), sizeOf j ≤ n →
      noCtrl (pyReprJ j) = true ∧ ((∀ s, j ≠ .str s) → noCtrl (pyStrJ j) = true) := by
  intro n
  induction n using Nat.strong_induction_on with
  | _ n ih =>
      intro j hj
      cases j with
      | null => exact ⟨by decide, fun _ => by decide⟩
      | bool b => cases b <;> exact ⟨by decide, fun _ => by decide⟩
      | num q =>
          refine ⟨?_, fun _ => ?_⟩ <;>
            · show noCtrl (numRepr q) = true
              exact noCtrl_numRepr q
      | str s =>
          refine ⟨?_, fun h => absurd rfl (h s)⟩
          show noCtrl (pyReprStr s) = true
          exact noCtrl_pyReprStr s
      | arr l =>
          have hparts : ∀ s ∈ pyReprList l, noCtrl s = true := by
            intro s hs
            obtain ⟨j', hj', rfl⟩ := mem_pyReprList l s hs
            have hsz : sizeOf j' < sizeOf l := List.sizeOf_lt_of_mem hj'
            have hn : sizeOf j' < n := by
              have : sizeOf (Json.arr l) = 1 + sizeOf l := by simp
              omega
            exact (ih (sizeOf j') hn j' le_rfl).1
          have hbody : noCtrl ("[" ++ joinSep ", " (pyReprList l) ++ "]") = true := by
            rw [noCtrl_append, noCtrl_append,
              noCtrl_joinSep ", " (by decide) (pyReprList l) hparts]
            rfl
          exact ⟨hbody, fun _ => hbody⟩
      | obj kvs =>
          have hparts : ∀ s ∈ pyReprKVs kvs, noCtrl s = true := by
            intro s hs
            obtain ⟨⟨k, v⟩, hkv, rfl⟩ := mem_pyReprKVs kvs s hs
            have hsz : sizeOf (k, v) < sizeOf kvs := List.sizeOf_lt_of_mem hkv
            have hszv : sizeOf v < sizeOf (k, v) := by
              simp
            have hn : sizeOf v < n := by
              have : sizeOf (Json.obj kvs) = 1 + sizeOf kvs := by simp
              omega
            rw [noCtrl_append, noCtrl_append, noCtrl_pyReprStr k,
              (ih (sizeOf v) hn v le_rfl).1]
            rfl
          have hbody : noCtrl ("\x7b" ++ joinSep ", " (pyReprKVs kvs) ++ "\x7d") = true := by
            rw [noCtrl_append, noCtrl_append,
              noCtrl_joinSep ", " (by decide) (pyReprKVs kvs) hparts]
            rfl
          exact ⟨hbody, fun _ => hbody⟩

theorem noCtrl_pyStrJ (j : Json) (h : ∀ s, j ≠ .str s) : noCtrl (pyStrJ j) = true :=
  (noCtrl_pyRender (sizeOf j) j le_rfl).2 h

theorem noCtrl_clean_item_name (v : Json) : noCtrl (clean_item_name v) = true := by
  cases v with
  | str s => exact cleanNameStr_noCtrl s
  | null => exact noCtrl_pyStrJ .null (fun s h => Json.noConfusion h)
  | bool b => exact noCtrl_pyStrJ (.bool b) (fun s h => Json.noConfusion h)
  | num q => exact noCtrl_pyStrJ (.num q) (fun s h => Json.noConfusion h)
  | arr l => exact noCtrl_pyStrJ (.arr l) (fun s h => Json.noConfusion h)
  | obj kvs => exact noCtrl_pyStrJ (.obj kvs) (fun s h => Json.noConfusion h)

theorem validate_numeric_field_nonneg (v : Json) (d : ℚ) (hd : 0 ≤ d) :
    0 ≤ validate_numeric_field v d := by
  unfold validate_numeric_field
  cases h : pyFloat (commaStripped v) with
  | none => exact hd
  | some x =>
      simp only
      by_cases hx : x < 0
      · rw [if_pos hx]; linarith
      · rw [if_neg hx]; linarith [not_lt.mp hx]

theorem validate_numeric_field_num (q : ℚ) (d : ℚ) (hq : 0 ≤ q) :
    validate_numeric_field (.num q) d = q := by
  unfold validate_numeric_field commaStripped
  simp only [pyFloat]
  rw [if_neg (not_lt.mpr hq)]

theorem validate_page_type_mem (j : Json) : validate_page_type j ∈ valid_types := by
  unfold validate_page_type
  split
  · decide
  · split
    · next h2 =>
        cases j with
        | str s =>
            have h2s : valid_types.contains s = true := h2
            simpa [pyStrJ] using List.mem_of_elem_eq_true h2s
        | null => simp at h2
        | bool b => simp at h2
        | num q => simp at h2
        | arr l => simp at h2
        | obj kvs => simp at h2
    · split
      · next v hf => exact List.mem_of_find?_eq_some hf
      · decide

theorem validate_page_type_fix (s : String) (hs : s ∈ valid_types) :
    validate_page_type (.str s) = s := by
  have htr : (Json.str s).truthy = true := by
    fin_cases hs <;> decide
  have hct : valid_types.contains s = true := List.elem_eq_true_of_mem hs
  unfold validate_page_type
  rw [if_neg (by simp [htr]), if_pos (by simp only; exact hct)]
  rfl

/-- The coerced quantity of `validate_bill_item`. -/
def vnfQ (item : Json) : ℚ := validate_numeric_field (item.getD "item_quantity" (.num 1)) 1

/-- The coerced rate. -/
def vnfR (item : Json) : ℚ := validate_numeric_field (item.getD "item_rate" (.num 0)) 0

/-- The coerced amount before reconciliation. -/
def vnfA (item : Json) : ℚ := validate_numeric_field (item.getD "item_amount" (.num 0)) 0

/-- The reconciled amount. -/
def vbiAmount (item : Json) : ℚ :=
  if ratAbs (vnfQ item * vnfR item - vnfA item) > 1/100 ∧ vnfQ item * vnfR item > 0 then
    (if vnfA item = 0 ∧ vnfQ item * vnfR item > 0 then vnfQ item * vnfR item else vnfA item)
  else vnfA item

/-- The name of the validated item. -/
def vbiName (item : Json) : String :=
  clean_item_name (item.getD "item_name" (.str "Unknown Item"))

theorem validate_bill_item_eq (item : Json) :
    validate_bill_item item =
      Json.obj [("item_name", .str (vbiName item)), ("item_quantity", .num (vnfQ item)),
                ("item_rate", .num (vnfR item)), ("item_amount", .num (vbiAmount item))] := rfl

theorem vbiAmount_nonneg (item : Json) : 0 ≤ vbiAmount item := by
  have hq : 0 ≤ vnfQ item := validate_numeric_field_nonneg _ _ (by norm_num)
  have hr : 0 ≤ vnfR item := validate_numeric_field_nonneg _ _ (by norm_num)
  have ha : 0 ≤ vnfA item := validate_numeric_field_nonneg _ _ (by norm_num)
  unfold vbiAmount
  split
  · split
    · positivity
    · exact ha
  · exact ha

theorem vbiAmount_zero_inv (item : Json) (h : vbiAmount item = 0) :
    vnfQ item * vnfR item ≤ 1/100 := by
  have hq : 0 ≤ vnfQ item := validate_numeric_field_nonneg _ _ (by norm_num)
  have hr : 0 ≤ vnfR item := validate_numeric_field_nonneg _ _ (by norm_num)
  have hqr : 0 ≤ vnfQ item * vnfR item := mul_nonneg hq hr
  unfold vbiAmount at h
  by_cases h1 : ratAbs (vnfQ item * vnfR item - vnfA item) > 1/100 ∧ vnfQ item * vnfR item > 0
  · rw [if_pos h1] at h
    by_cases h2 : vnfA item = 0 ∧ vnfQ item * vnfR item > 0
    · rw [if_pos h2] at h
      linarith [h1.2]
    · rw [if_neg h2] at h
      push_neg at h2
      linarith [h2 h]
  · rw [if_neg h1] at h
    push_neg at h1
    by_contra hc
    push_neg at hc
    have habs : ratAbs (vnfQ item * vnfR item - vnfA item) = vnfQ item * vnfR item := by
      rw [h, sub_zero, ratAbs, if_neg (not_lt.mpr hqr)]
    have h3 := h1 (by rw [habs]; exact hc)
    linarith

/-- Invariant established by one validation pass on every surviving item:
the canonical four-field shape, a name that passed the filters and is
control-character free, non-negative numerics, and amount/product
consistency at zero. -/
def itemInv0 (it : Json) : Prop :=
  ∃ nm q r a,
    it = Json.obj [("item_name", Json.str nm), ("item_quantity", Json.num q),
                   ("item_rate", Json.num r), ("item_amount", Json.num a)] ∧
    is_discount_or_total_row nm = false ∧ nm ≠ "" ∧ nm ≠ "Unknown Item" ∧
    noCtrl nm = true ∧ 0 ≤ q ∧ 0 ≤ r ∧ 0 ≤ a ∧ (a = 0 → q * r ≤ 1/100)

/-- `itemInv0` strengthened with a fully cleaned name: such items are
fixed points of `validate_bill_item`. -/
def itemClean (it : Json) : Prop :=
  ∃ nm q r a,
    it = Json.obj [("item_name", Json.str nm), ("item_quantity", Json.num q),
                   ("item_rate", Json.num r), ("item_amount", Json.num a)] ∧
    cleanNameStr nm = nm ∧
    is_discount_or_total_row nm = false ∧ nm ≠ "" ∧ nm ≠ "Unknown Item" ∧
    noCtrl nm = true ∧ 0 ≤ q ∧ 0 ≤ r ∧ 0 ≤ a ∧ (a = 0 → q * r ≤ 1/100)

/-- Page invariant after one validation pass. -/
def pageInv0 (p : Json) : Prop :=
  ∃ pn pt items,
    p = Json.obj [("page_no", Json.str pn), ("page_type", Json.str pt),
                  ("bill_items", Json.arr items)] ∧
    pt ∈ valid_types ∧ items ≠ [] ∧ ∀ it ∈ items, itemInv0 it

/-- Page invariant with cleaned item names. -/
def pageClean (p : Json) : Prop :=
  ∃ pn pt items,
    p = Json.obj [("page_no", Json.str pn), ("page_type", Json.str pt),
                  ("bill_items", Json.arr items)] ∧
    pt ∈ valid_types ∧ items ≠ [] ∧ ∀ it ∈ items, itemClean it

/-- Document invariant after one validation pass. -/
def docInv0 (d : Json) : Prop :=
  ∃ pages, d = Json.obj [("pagewise_line_items", Json.arr pages)] ∧
    ∀ p ∈ pages, pageInv0 p

/-- Document invariant with cleaned item names: exactly the fixed points
of `validate_and_clean_invoice_data` this development exhibits. -/
def docClean (d : Json) : Prop :=
  ∃ pages, d = Json.obj [("pagewise_line_items", Json.arr pages)] ∧
    ∀ p ∈ pages, pageClean p

theorem processItem_some_eq (item it : Json) (h : processItem item = some it) :
    it = validate_bill_item item ∧
    is_discount_or_total_row (vbiName item) = false ∧
    vbiName item ≠ "" ∧ vbiName item ≠ "Unknown Item" := by
  cases item with
  | null => exact absurd h (by simp [processItem])
  | bool b => exact absurd h (by simp [processItem])
  | num q => exact absurd h (by simp [processItem])
  | str s => exact absurd h (by simp [processItem])
  | arr l => exact absurd h (by simp [processItem])
  | obj kvs =>
      unfold processItem at h
      dsimp only at h
      split at h
      · exact absurd h (by simp)
      · next h1 =>
          rw [Bool.not_eq_true] at h1
          split at h
          · next x hx =>
              split at h
              · exact absurd h (by simp)
              · split at h
                · next hcond =>
                    exact ⟨(Option.some.inj h).symm, h1, hcond.1, hcond.2⟩
                · exact absurd h (by simp)
          · next hx =>
              split at h
              · next hcond =>
                  exact ⟨(Option.some.inj h).symm, h1, hcond.1, hcond.2⟩
              · exact absurd h (by simp)

theorem processItem_some_inv0 (item it : Json) (h : processItem item = some it) :
    itemInv0 it := by
  obtain ⟨heq, hdisc, hne, hnu⟩ := processItem_some_eq item it h
  exact ⟨vbiName item, vnfQ item, vnfR item, vbiAmount item,
    by rw [heq, validate_bill_item_eq],
    hdisc, hne, hnu, noCtrl_clean_item_name _,
    validate_numeric_field_nonneg _ _ (by norm_num),
    validate_numeric_field_nonneg _ _ (by norm_num),
    vbiAmount_nonneg item, fun hz => vbiAmount_zero_inv item hz⟩

theorem vbiName_clean_of_str (item : Json) (s : String)
    (hs : item.getD "item_name" (.str "Unknown Item") = Json.str s) :
    cleanNameStr (vbiName item) = vbiName item := by
  unfold vbiName
  rw [hs]
  exact cleanNameStr_idem s

theorem processItem_some_clean (item it : Json) (s : String)
    (hs : item.getD "item_name" (.str "Unknown Item") = Json.str s)
    (h : processItem item = some it) : itemClean it := by
  obtain ⟨heq, hdisc, hne, hnu⟩ := processItem_some_eq item it h
  exact ⟨vbiName item, vnfQ item, vnfR item, vbiAmount item,
    by rw [heq, validate_bill_item_eq],
    vbiName_clean_of_str item s hs,
    hdisc, hne, hnu, noCtrl_clean_item_name _,
    validate_numeric_field_nonneg _ _ (by norm_num),
    validate_numeric_field_nonneg _ _ (by norm_num),
    vbiAmount_nonneg item, fun hz => vbiAmount_zero_inv item hz⟩

theorem processPage_some_inv0 (page p : Json) (h : processPage page = some p) :
    pageInv0 p := by
  cases page with
  | null => exact absurd h (by simp [processPage])
  | bool b => exact absurd h (by simp [processPage])
  | num q => exact absurd h (by simp [processPage])
  | str s => exact absurd h (by simp [processPage])
  | arr l => exact absurd h (by simp [processPage])
  | obj kvs =>
      unfold processPage at h
      dsimp only at h
      split at h
      · exact absurd h (by simp)
      · next hne =>
          refine ⟨_, _, _, (Option.some.inj h).symm, validate_page_type_mem _, ?_, ?_⟩
          · intro hnil
            rw [Bool.not_eq_true] at hne
            rw [hnil] at hne
            simp at hne
          · intro it hit
            obtain ⟨a, _, hpa⟩ := List.mem_filterMap.mp hit
            exact processItem_some_inv0 a it hpa

theorem validate_inv0 (data : Json) :
    docInv0 (validate_and_clean_invoice_data data) := by
  cases data with
  | null => exact ⟨[], rfl, by simp⟩
  | bool b => exact ⟨[], rfl, by simp⟩
  | num q => exact ⟨[], rfl, by simp⟩
  | str s => exact ⟨[], rfl, by simp⟩
  | arr l => exact ⟨[], rfl, by simp⟩
  | obj kvs =>
      unfold validate_and_clean_invoice_data
      dsimp only
      split
      · next pages hp =>
          refine ⟨_, rfl, ?_⟩
          intro p hp2
          obtain ⟨a, _, hpa⟩ := List.mem_filterMap.mp hp2
          exact processPage_some_inv0 a p hpa
      · exact ⟨[], rfl, by simp⟩

theorem processPage_red (pn pt : String) (items : List Json) :
    processPage (Json.obj [("page_no", Json.str pn), ("page_type", Json.str pt),
                           ("bill_items", Json.arr items)]) =
      (if (items.filterMap processItem).isEmpty then none
       else some (Json.obj [("page_no", Json.str pn),
                            ("page_type", Json.str (validate_page_type (Json.str pt))),
                            ("bill_items", Json.arr (items.filterMap processItem))])) := rfl

theorem getD_item_name (nm : String) (q r a : ℚ) (d : Json) :
    (Json.obj [("item_name", Json.str nm), ("item_quantity", Json.num q),
               ("item_rate", Json.num r), ("item_amount", Json.num a)]).getD
      "item_name" d = Json.str nm := rfl

theorem validate_clean_of_inv0 (x : Json) (hx : docInv0 x) :
    docClean (validate_and_clean_invoice_data x) := by
  obtain ⟨pages, rfl, hpg⟩ := hx
  refine ⟨pages.filterMap processPage, rfl, ?_⟩
  intro p1 hp1
  obtain ⟨p, hp, hpp⟩ := List.mem_filterMap.mp hp1
  obtain ⟨pn, pt, items, rfl, hptv, hne, hitems⟩ := hpg p hp
  rw [processPage_red] at hpp
  split at hpp
  · exact absurd hpp (by simp)
  · next hvne =>
      refine ⟨pn, validate_page_type (Json.str pt), items.filterMap processItem,
        (Option.some.inj hpp).symm, validate_page_type_mem _, ?_, ?_⟩
      · intro hnil
        rw [Bool.not_eq_true, hnil] at hvne
        simp at hvne
      · intro it hit
        obtain ⟨a0, ha0, hpa⟩ := List.mem_filterMap.mp hit
        obtain ⟨nm, q, r, a, rfl, _⟩ := hitems a0 ha0
        exact processItem_some_clean _ it nm (getD_item_name nm q r a _) hpa

theorem filterMap_some_id {α : Type} (f : α → Option α) (l : List α)
    (h : ∀ x ∈ l, f x = some x) : l.filterMap f = l := by
  induction l with
  | nil => rfl
  | cons a as ih =>
      rw [List.filterMap_cons, h a (by simp)]
      rw [ih (fun x hx => h x (by simp [hx]))]

theorem validate_bill_item_fixed (nm : String) (q r a : ℚ)
    (hclean : cleanNameStr nm = nm) (hq : 0 ≤ q) (hr : 0 ≤ r) (ha : 0 ≤ a)
    (hstab : a = 0 → q * r ≤ 1/100) :
    validate_bill_item
      (Json.obj [("item_name", Json.str nm), ("item_quantity", Json.num q),
                 ("item_rate", Json.num r), ("item_amount", Json.num a)]) =
    Json.obj [("item_name", Json.str nm), ("item_quantity", Json.num q),
              ("item_rate", Json.num r), ("item_amount", Json.num a)] := by
  rw [validate_bill_item_eq]
  have hnm : vbiName (Json.obj [("item_name", Json.str nm), ("item_quantity", Json.num q),
      ("item_rate", Json.num r), ("item_amount", Json.num a)]) = cleanNameStr nm := rfl
  have hvq : vnfQ (Json.obj [("item_name", Json.str nm), ("item_quantity", Json.num q),
      ("item_rate", Json.num r), ("item_amount", Json.num a)]) =
      validate_numeric_field (Json.num q) 1 := rfl
  have hvr : vnfR (Json.obj [("item_name", Json.str nm), ("item_quantity", Json.num q),
      ("item_rate", Json.num r), ("item_amount", Json.num a)]) =
      validate_numeric_field (Json.num r) 0 := rfl
  have hva : vnfA (Json.obj [("item_name", Json.str nm), ("item_quantity", Json.num q),
      ("item_rate", Json.num r), ("item_amount", Json.num a)]) =
      validate_numeric_field (Json.num a) 0 := rfl
  have hq2 : vnfQ (Json.obj [("item_name", Json.str nm), ("item_quantity", Json.num q),
      ("item_rate", Json.num r), ("item_amount", Json.num a)]) = q := by
    rw [hvq, validate_numeric_field_num q 1 hq]
  have hr2 : vnfR (Json.obj [("item_name", Json.str nm), ("item_quantity", Json.num q),
      ("item_rate", Json.num r), ("item_amount", Json.num a)]) = r := by
    rw [hvr, validate_numeric_field_num r 0 hr]
  have ha2 : vnfA (Json.obj [("item_name", Json.str nm), ("item_quantity", Json.num q),
      ("item_rate", Json.num r), ("item_amount", Json.num a)]) = a := by
    rw [hva, validate_numeric_field_num a 0 ha]
  have hA : vbiAmount (Json.obj [("item_name", Json.str nm), ("item_quantity", Json.num q),
      ("item_rate", Json.num r), ("item_amount", Json.num a)]) = a := by
    unfold vbiAmount
    rw [hq2, hr2, ha2]
    by_cases hc1 : ratAbs (q * r - a) > 1/100 ∧ q * r > 0
    · rw [if_pos hc1]
      by_cases hc2 : a = 0 ∧ q * r > 0
      · exfalso
        have h1 := hc1.1
        rw [hc2.1, sub_zero, ratAbs, if_neg (not_lt.mpr (mul_nonneg hq hr))] at h1
        linarith [hstab hc2.1]
      · rw [if_neg hc2]
    · rw [if_neg hc1]
  rw [hnm, hclean, hq2, hr2, hA]

theorem processItem_red (nm : String) (q r a : ℚ) :
    processItem (Json.obj [("item_name", Json.str nm), ("item_quantity", Json.num q),
                           ("item_rate", Json.num r), ("item_amount", Json.num a)]) =
      (if is_discount_or_total_row (cleanNameStr nm) then none
       else if a < 0 then none
       else if cleanNameStr nm ≠ "" ∧ cleanNameStr nm ≠ "Unknown Item" then
         some (validate_bill_item
           (Json.obj [("item_name", Json.str nm), ("item_quantity", Json.num q),
                      ("item_rate", Json.num r), ("item_amount", Json.num a)]))
       else none) := rfl

theorem processItem_fixed (it : Json) (h : itemClean it) : processItem it = some it := by
  obtain ⟨nm, q, r, a, rfl, hclean, hdisc, hne, hnu, hctrl, hq, hr, ha, hstab⟩ := h
  rw [processItem_red, hclean]
  rw [if_neg (by simp [hdisc]), if_neg (not_lt.mpr ha), if_pos ⟨hne, hnu⟩]
  rw [validate_bill_item_fixed nm q r a hclean hq hr ha hstab]

theorem processPage_fixed (p : Json) (h : pageClean p) : processPage p = some p := by
  obtain ⟨pn, pt, items, rfl, hptv, hne, hitems⟩ := h
  have hfm : items.filterMap processItem = items :=
    filterMap_some_id processItem items (fun it hit => processItem_fixed it (hitems it hit))
  rw [processPage_red, hfm]
  have hie : items.isEmpty = false := by
    cases items with
    | nil => exact absurd rfl hne
    | cons a as => rfl
  rw [if_neg (by simp [hie]), validate_page_type_fix pt hptv]

theorem validate_fixed (x : Json) (h : docClean x) :
    validate_and_clean_invoice_data x = x := by
  obtain ⟨pages, rfl, hpg⟩ := h
  have hred : validate_and_clean_invoice_data
      (Json.obj [("pagewise_line_items", Json.arr pages)]) =
      Json.obj [("pagewise_line_items", Json.arr (pages.filterMap processPage))] := rfl
  rw [hred, filterMap_some_id processPage pages
    (fun p hp => processPage_fixed p (hpg p hp))]

/-- C4: for every input document, every item of the document returned by
`validate_and_clean_invoice_data` has non-negative `item_amount`,
`item_rate` and `item_quantity` and an `item_name` free of control
characters, and every page carries a `page_type` drawn from the three
canonical values (in particular never null and never empty). -/
theorem C4_output_invariants (data : Json) :
    ∃ pages, validate_and_clean_invoice_data data =
        Json.obj [("pagewise_line_items", Json.arr pages)] ∧
      ∀ p ∈ pages, ∃ pn pt items,
        p = Json.obj [("page_no", Json.str pn), ("page_type", Json.str pt),
                      ("bill_items", Json.arr items)] ∧
        pt ∈ valid_types ∧ pt ≠ "" ∧
        ∀ it ∈ items, ∃ nm q r a,
          it = Json.obj [("item_name", Json.str nm), ("item_quantity", Json.num q),
                         ("item_rate", Json.num r), ("item_amount", Json.num a)] ∧
          noCtrl nm = true ∧ 0 ≤ q ∧ 0 ≤ r ∧ 0 ≤ a := by
  obtain ⟨pages, he, hpg⟩ := validate_inv0 data
  refine ⟨pages, he, ?_⟩
  intro p hp
  obtain ⟨pn, pt, items, hpe, hptv, hne, hitems⟩ := hpg p hp
  have hptne : pt ≠ "" := by
    fin_cases hptv <;> decide
  refine ⟨pn, pt, items, hpe, hptv, hptne, ?_⟩
  intro it hit
  obtain ⟨nm, q, r, a, hie, hdisc, hne2, hnu, hctrl, hq, hr, ha, hst⟩ := hitems it hit
  exact ⟨nm, q, r, a, hie, hctrl, hq, hr, ha⟩

/-- A document on which validation is not idempotent: the item name is a
list, so the first pass stringifies it with `str()` (yielding the Python
repr, whose inner double space survives), while the second pass, now
seeing a string, collapses the whitespace. -/
def vC8 : Json :=
  Json.obj [("pagewise_line_items", Json.arr [
    Json.obj [("page_no", Json.str "1"), ("page_type", Json.str "Bill Detail"),
      ("bill_items", Json.arr [
        Json.obj [("item_name", Json.arr [Json.str "a  b"]),
                  ("item_quantity", Json.num 1), ("item_rate", Json.num 2),
                  ("item_amount", Json.num 2)]])]])]

/-- C8, counterexample: `validate_and_clean_invoice_data` is not
idempotent — on `vC8` the second application changes the document again
(the non-string item name is stringified, not cleaned, by the first
pass, and only cleaned by the second). -/
theorem C8_counterexample :
    validate_and_clean_invoice_data (validate_and_clean_invoice_data vC8) ≠
      validate_and_clean_invoice_data vC8 := by decide

/-- C8, amended: validation stabilises after two passes — the third
application changes nothing (and, by the proof, a single pass is a fixed
point whenever every item name it keeps is already a cleaned string). -/
theorem C8_idempotent_amended (x : Json) :
    validate_and_clean_invoice_data (validate_and_clean_invoice_data
      (validate_and_clean_invoice_data x)) =
    validate_and_clean_invoice_data (validate_and_clean_invoice_data x) :=
  validate_fixed _ (validate_clean_of_inv0 _ (validate_inv0 x))

/-- A perfectly ordinary, already-clean bill item used to track duplicate
handling. -/
def itemC10 : Json :=
  Json.obj [("item_name", Json.str "Paracetamol 500mg"), ("item_quantity", Json.num 2),
            ("item_rate", Json.num 5), ("item_amount", Json.num 10)]

/-- The `BillItem` that `_calculate_totals` builds from `itemC10`. -/
def biC10 : BillItem := ⟨"Paracetamol 500mg", 10, 5, 2⟩

/-- The dedup signature of `itemC10`. -/
def sigC10 : String × Json × Json × Json :=
  itemSig "Paracetamol 500mg" (Json.num 2) (Json.num 5) (Json.num 10)

/-- A page holding `n` identical copies of `itemC10`. -/
def pageC10 (n : ℕ) : Json :=
  Json.obj [("page_no", Json.str "1"), ("page_type", Json.str "Bill Detail"),
            ("bill_items", Json.arr (List.replicate n itemC10))]

/-- A document whose single page holds `n` identical copies of `itemC10`. -/
def dupDocC10 (n : ℕ) : Json :=
  Json.obj [("pagewise_line_items", Json.arr [pageC10 n])]

theorem filterMap_replicate {α β : Type} (f : α → Option β) (x : α) (y : β)
    (h : f x = some y) (n : ℕ) :
    (List.replicate n x).filterMap f = List.replicate n y := by
  induction n with
  | zero => rfl
  | succ k ih =>
      rw [List.replicate_succ, List.filterMap_cons, h, List.replicate_succ, ih]

theorem dedupItems_replicate_skip (seen : List (String × Json × Json × Json)) (m : ℕ) :
    dedupItems (sigC10 :: seen) (List.replicate m itemC10) = some [] := by
  induction m with
  | zero => rfl
  | succ k ih =>
      rw [List.replicate_succ]
      have hred : dedupItems (sigC10 :: seen) (itemC10 :: List.replicate k itemC10) =
          (if (sigC10 :: seen).contains sigC10 then
            dedupItems (sigC10 :: seen) (List.replicate k itemC10)
          else
            match dedupItems (sigC10 :: sigC10 :: seen) (List.replicate k itemC10) with
            | some rest0 => some (itemC10 :: rest0)
            | none => none) := rfl
      rw [hred, if_pos (by simp), ih]

theorem dedupItems_replicate (k : ℕ) :
    dedupItems [] (List.replicate (k + 1) itemC10) = some [itemC10] := by
  rw [List.replicate_succ]
  have hred : dedupItems [] (itemC10 :: List.replicate k itemC10) =
      (match dedupItems [sigC10] (List.replicate k itemC10) with
       | some rest0 => some (itemC10 :: rest0)
       | none => none) := rfl
  rw [hred, dedupItems_replicate_skip [] k]

theorem calcPages_C10 (n : ℕ) (hn : 0 < n) :
    calcPages [pageC10 n] = some ([⟨"1", "Bill Detail", List.replicate n biC10⟩], n) := by
  have hred : calcPages [pageC10 n] =
      (if ((List.replicate n itemC10).filterMap mkBillItem).isEmpty then some ([], 0)
       else some ([⟨"1", "Bill Detail", (List.replicate n itemC10).filterMap mkBillItem⟩],
                  0 + ((List.replicate n itemC10).filterMap mkBillItem).length)) := rfl
  rw [hred, filterMap_replicate mkBillItem itemC10 biC10 rfl n]
  have hie : (List.replicate n biC10).isEmpty = false := by
    cases n with
    | zero => exact absurd hn (by simp)
    | succ k => rw [List.replicate_succ]; rfl
  rw [if_neg (by simp [hie]), List.length_replicate, Nat.zero_add]

/-- C10: duplicates survive the pipeline — for a document whose single
page holds `n > 0` identical copies of a clean item, validation returns
the document unchanged, `_calculate_totals` keeps all `n` copies and
reports `total_item_count = n`, while the (never invoked)
`remove_duplicate_items` helper would have collapsed them to a single
copy. -/
theorem C10_duplicates_preserved (n : ℕ) (hn : 0 < n) :
    validate_and_clean_invoice_data (dupDocC10 n) = dupDocC10 n ∧
    calculate_totals (dupDocC10 n) =
      some ⟨[⟨"1", "Bill Detail", List.replicate n biC10⟩], n⟩ ∧
    (calculate_totals (dupDocC10 n)).map InvoiceData.total_item_count = some n ∧
    remove_duplicate_items (dupDocC10 n) = some (dupDocC10 1) := by
  obtain ⟨k, rfl⟩ : ∃ k, n = k + 1 := ⟨n - 1, (Nat.succ_pred_eq_of_pos hn).symm⟩
  have hclean : docClean (dupDocC10 (k + 1)) := by
    refine ⟨[pageC10 (k + 1)], rfl, ?_⟩
    intro p hp
    rw [List.mem_singleton] at hp
    subst hp
    refine ⟨"1", "Bill Detail", List.replicate (k + 1) itemC10, rfl, by decide, ?_, ?_⟩
    · rw [List.replicate_succ]
      exact List.cons_ne_nil _ _
    · intro it hit
      rw [List.eq_of_mem_replicate hit]
      exact ⟨"Paracetamol 500mg", 2, 5, 10, rfl, by decide, by decide, by decide,
        by decide, by decide, by norm_num, by norm_num, by norm_num,
        fun h => absurd h (by norm_num)⟩
  have hval : validate_and_clean_invoice_data (dupDocC10 (k + 1)) = dupDocC10 (k + 1) :=
    validate_fixed _ hclean
  have hcalc : calculate_totals (dupDocC10 (k + 1)) =
      some ⟨[⟨"1", "Bill Detail", List.replicate (k + 1) biC10⟩], k + 1⟩ := by
    have hred : calculate_totals (dupDocC10 (k + 1)) =
        (match (validate_and_clean_invoice_data (dupDocC10 (k + 1))).getD
            "pagewise_line_items" (Json.arr []) with
         | Json.arr pages =>
             (match calcPages pages with
              | some (ps, m) => some ⟨ps, m⟩
              | none => none)
         | _ => none) := rfl
    rw [hred, hval]
    have hg : (dupDocC10 (k + 1)).getD "pagewise_line_items" (Json.arr []) =
        Json.arr [pageC10 (k + 1)] := rfl
    rw [hg]
    dsimp only
    rw [calcPages_C10 (k + 1) (Nat.succ_pos k)]
  have hdup : remove_duplicate_items (dupDocC10 (k + 1)) = some (dupDocC10 1) := by
    have hred : remove_duplicate_items (dupDocC10 (k + 1)) =
        (match dedupPages [pageC10 (k + 1)] with
         | some pages1 => some (Json.obj [("pagewise_line_items", Json.arr pages1)])
         | none => none) := rfl
    have hpg : dedupPages [pageC10 (k + 1)] = some [pageC10 1] := by
      have hred2 : dedupPages [pageC10 (k + 1)] =
          (match dedupItems [] (List.replicate (k + 1) itemC10),
                 dedupPages ([] : List Json) with
           | some cleaned, some rest1 =>
               if cleaned.isEmpty then some rest1
               else some (Json.obj [("page_no", Json.str "1"),
                                    ("page_type", Json.str "Bill Detail"),
                                    ("bill_items", Json.arr cleaned)] :: rest1)
           | _, _ => none) := rfl
      rw [hred2, dedupItems_replicate k]
      rfl
    rw [hred, hpg]
    rfl
  refine ⟨hval, hcalc, ?_, hdup⟩
  rw [hcalc]
  rfl

/-- C10, witness: the theorem applied at three copies. -/
theorem C10_duplicates_preserved_witness :
    0 < 3 ∧
    (validate_and_clean_invoice_data (dupDocC10 3) = dupDocC10 3 ∧
     calculate_totals (dupDocC10 3) =
       some ⟨[⟨"1", "Bill Detail", List.replicate 3 biC10⟩], 3⟩ ∧
     (calculate_totals (dupDocC10 3)).map InvoiceData.total_item_count = some 3 ∧
     remove_duplicate_items (dupDocC10 3) = some (dupDocC10 1)) :=
  ⟨by decide, C10_duplicates_preserved 3 (by decide)⟩
